import Mathlib

/-!
Verification of the OpenAI error-string interpreter and retry driver
(`openai/error-parser.go` and its caller `generateJsonContent`).

Strings are modelled as `List Char` (Go strings ranged over as runes).
The two header regular expressions and the rate-limit grammar are embedded
as explicit leftmost-first backtracking matchers: every greedy repetition
(`+` / `*` over a character class) enumerates its possible splits longest
first, and alternation is tried left to right, exactly the match RE2 /
`regexp.FindStringSubmatch` selects.  The JSON body decoding of
`encoding/json.Unmarshal` into the shell struct is embedded by a fuel-indexed
JSON value parser followed by a field-folding unmarshaller (case-insensitive
keys, later duplicates overwrite, `null` no-ops for value fields and clears
pointer fields, type mismatches fail).
-/

namespace MyAiLib

/-! ## Character classes -/

/-- RE2 `\s`, i.e. `[\t\n\f\r ]`. -/
def goRegexSpace (c : Char) : Bool :=
  c == '\t' || c == '\n' || c == '\x0c' || c == '\r' || c == ' '

/-- `unicode.IsSpace`, used by `strings.TrimSpace`. -/
def goUnicodeSpace (c : Char) : Bool :=
  c == '\t' || c == '\n' || c == '\x0b' || c == '\x0c' || c == '\r' || c == ' ' ||
  c == '\x85' || c == '\xa0' || c == ' ' ||
  (0x2000 ≤ c.toNat && c.toNat ≤ 0x200a) ||
  c == ' ' || c == ' ' || c == ' ' || c == ' ' || c == '　'

/-- RE2 `\d`. -/
def isDigitC (c : Char) : Bool := 48 ≤ c.toNat && c.toNat ≤ 57

/-- The reason-phrase class `[A-Za-z ]`. -/
def isReasonChar (c : Char) : Bool :=
  (65 ≤ c.toNat && c.toNat ≤ 90) || (97 ≤ c.toNat && c.toNat ≤ 122) || c == ' '

/-- RE2 `\w`, i.e. `[0-9A-Za-z_]`. -/
def isWordC (c : Char) : Bool :=
  isDigitC c || (65 ≤ c.toNat && c.toNat ≤ 90) || (97 ≤ c.toNat && c.toNat ≤ 122) || c == '_'

/-- The model-name class `[\w\-.]`. -/
def isModelC (c : Char) : Bool := isWordC c || c == '-' || c == '.'

/-- The scope-id class `[\w-]`. -/
def isScopeC (c : Char) : Bool := isWordC c || c == '-'

/-- The metric class `[^:]`. -/
def isMetricC (c : Char) : Bool := !(c == ':')

/-- RE2 `\S`. -/
def isNonSpaceRe (c : Char) : Bool := !goRegexSpace c

/-- RE2 `.` (any character except newline). -/
def isDotC (c : Char) : Bool := !(c == '\n')

/-- The retry-seconds class `[0-9.]`. -/
def isFloatC (c : Char) : Bool := isDigitC c || c == '.'

/-! ## List/string utilities mirroring the `strings` package -/

/-- `strings.TrimSpace`. -/
def trimSpace (s : List Char) : List Char :=
  ((s.dropWhile goUnicodeSpace).reverse.dropWhile goUnicodeSpace).reverse

/-- ASCII lower-casing of a single character (the fragment of
`unicode.ToLower` relevant to matching the ASCII literals below). -/
def lowerAscii (c : Char) : Char :=
  if 65 ≤ c.toNat ∧ c.toNat ≤ 90 then Char.ofNat (c.toNat + 32) else c

/-- `strings.ToLower` (ASCII fragment). -/
def lowerStr (s : List Char) : List Char := s.map lowerAscii

/-- `pat` occurs at the start of `s`. -/
def hasPref : List Char → List Char → Bool
  | [], _ => true
  | _ :: _, [] => false
  | p :: ps, c :: cs => p == c && hasPref ps cs

/-- `strings.Contains s pat`. -/
def goContains : List Char → List Char → Bool
  | [], pat => hasPref pat []
  | c :: rest, pat => hasPref pat (c :: rest) || goContains rest pat

/-- Numeric value of a run of decimal digits (`strconv.Atoi` on the
all-digit captures of the grammars; such inputs never make `Atoi` fail). -/
def natOfDigits (ds : List Char) : Nat :=
  ds.foldl (fun a c => a * 10 + (c.toNat - 48)) 0

/-- `strconv.Atoi` saturates at `MaxInt64` on out-of-range input (the Go code
ignores the accompanying error and keeps the saturated value). -/
def goAtoiSat (ds : List Char) : Nat := min (natOfDigits ds) (2 ^ 63 - 1)

/-- Index of the first occurrence of `c` (`strings.Index` for a
one-character pattern). -/
def firstIdxOf (c : Char) : List Char → Option Nat
  | [] => none
  | x :: rest => if x == c then some 0 else (firstIdxOf c rest).map (· + 1)

/-- Index of the last occurrence of `c` (`strings.LastIndex` for a
one-character pattern). -/
def lastIdxOf (c : Char) (s : List Char) : Option Nat :=
  (firstIdxOf c s.reverse).map (fun j => s.length - 1 - j)

/-- `strings.ReplaceAll s ('\\' :: [e]) [r]`: left-to-right, non-overlapping
replacement of the two-character escape sequence by the single character. -/
def replEsc (e r : Char) : List Char → List Char
  | [] => []
  | [c] => [c]
  | '\\' :: c :: rest =>
    if c == e then r :: replEsc e r rest else '\\' :: replEsc e r (c :: rest)
  | c :: rest => c :: replEsc e r rest

/-! ## Leftmost-first matching combinators -/

/-- Match a literal at the head, returning the rest. -/
def litP (pat s : List Char) : Option (List Char) :=
  if hasPref pat s then some (s.drop pat.length) else none

/-- Length of the maximal leading run of `cls` characters. -/
def maximalRun (cls : Char → Bool) : List Char → Nat
  | [] => 0
  | c :: rest => if cls c then maximalRun cls rest + 1 else 0

/-- The splits `(s.take k, s.drop k)` for `k = n, n-1, …, 1` (longest first:
the order a greedy backtracking engine explores). -/
def splitsDesc (s : List Char) : Nat → List (List Char × List Char)
  | 0 => []
  | k + 1 => (s.take (k + 1), s.drop (k + 1)) :: splitsDesc s k

/-- Greedy `cls+`: candidate splits, longest first. -/
def splitsMany1 (cls : Char → Bool) (s : List Char) : List (List Char × List Char) :=
  splitsDesc s (maximalRun cls s)

/-- Greedy `cls*`: candidate splits, longest first, ending with the empty one. -/
def splitsMany0 (cls : Char → Bool) (s : List Char) : List (List Char × List Char) :=
  splitsDesc s (maximalRun cls s) ++ [([], s)]

/-- `cls{n}`: exactly `n` characters of the class. -/
def takeExact (n : Nat) (cls : Char → Bool) (s : List Char) :
    Option (List Char × List Char) :=
  if (s.take n).length = n ∧ (s.take n).all cls then some (s.take n, s.drop n) else none

/-! ## The two header patterns -/

def methodsList : List (List Char) :=
  [("GET".toList), ("POST".toList), ("PUT".toList), ("PATCH".toList), ("DELETE".toList)]

structure HeadJson where
  mth : List Char
  url : List Char
  st : List Char
  rsn : List Char
deriving DecidableEq

/-- `^(GET|POST|PUT|PATCH|DELETE)\s+"([^"]+)"\s*:\s*(\d{3})\s+([A-Za-z ]+)\s+`
applied at the start of the (already trimmed) input, with leftmost-first
backtracking. -/
def jsonHead (s : List Char) : Option HeadJson :=
  methodsList.findSome? fun mth =>
  (litP mth s).bind fun r1 =>
  (splitsMany1 goRegexSpace r1).findSome? fun p2 =>
  (litP (['"']) p2.2).bind fun r3 =>
  (splitsMany1 (fun c => !(c == '"')) r3).findSome? fun p4 =>
  (litP (['"']) p4.2).bind fun r5 =>
  (splitsMany0 goRegexSpace r5).findSome? fun p6 =>
  (litP ([':']) p6.2).bind fun r7 =>
  (splitsMany0 goRegexSpace r7).findSome? fun p8 =>
  (takeExact 3 isDigitC p8.2).bind fun p9 =>
  (splitsMany1 goRegexSpace p9.2).findSome? fun p10 =>
  (splitsMany1 isReasonChar p10.2).findSome? fun p11 =>
  (splitsMany1 goRegexSpace p11.2).findSome? fun _ =>
  some ⟨mth, p4.1, p9.1, p11.1⟩

structure HeadPlain where
  mth : List Char
  url : List Char
  st : List Char
  rsn : List Char
  msg : List Char
deriving DecidableEq

/-- The part of the plain header pattern after the verb alternative:
`\s+(\S+):\s+(\d{3})\s+([A-Za-z ]+)\s+-\s+(.*)$` preceded by the given
verb literal. -/
def plainTail (mth : List Char) (s : List Char) : Option HeadPlain :=
  (litP mth s).bind fun r1 =>
  (splitsMany1 goRegexSpace r1).findSome? fun p2 =>
  (splitsMany1 isNonSpaceRe p2.2).findSome? fun p3 =>
  (litP ([':']) p3.2).bind fun r4 =>
  (splitsMany1 goRegexSpace r4).findSome? fun p5 =>
  (takeExact 3 isDigitC p5.2).bind fun p6 =>
  (splitsMany1 goRegexSpace p6.2).findSome? fun p7 =>
  (splitsMany1 isReasonChar p7.2).findSome? fun p8 =>
  (splitsMany1 goRegexSpace p8.2).findSome? fun p9 =>
  (litP (['-']) p9.2).bind fun r10 =>
  (splitsMany1 goRegexSpace r10).findSome? fun p11 =>
  (splitsMany0 isDotC p11.2).findSome? fun p12 =>
  if p12.2 = [] then some ⟨mth, p3.1, p6.1, p8.1, p12.1⟩ else none

/-- `^(GET|POST|PUT|PATCH|DELETE)\s+(\S+):\s+(\d{3})\s+([A-Za-z ]+)\s+-\s+(.*)$`
applied at the start of the trimmed input ( `$` is end of text, `.` excludes
newline). -/
def plainHead (s : List Char) : Option HeadPlain :=
  methodsList.findSome? fun mth => plainTail mth s

/-! ## The rate-limit grammar -/

structure RateCaps where
  modelV : List Char
  scopeTypeV : List Char
  scopeIdV : List Char
  metricV : List Char
  limitD : List Char
  usedD : List Char
  reqD : List Char
  secD : List Char
  urlV : List Char
deriving DecidableEq

/-- One attempt of the rate-limit regular expression at the current
position (same leftmost-first discipline). -/
def matchRateAt (s : List Char) : Option RateCaps :=
  (litP ("Rate limit reached for ".toList) s).bind fun r1 =>
  (splitsMany1 isModelC r1).findSome? fun p2 =>
  (litP (" in ".toList) p2.2).bind fun r3 =>
  ([("organization".toList), ("project".toList)].findSome? fun scty =>
    (litP scty r3).bind fun r4 =>
    (litP ([' ']) r4).bind fun r5 =>
    (splitsMany1 isScopeC r5).findSome? fun p6 =>
    (litP (" on ".toList) p6.2).bind fun r7 =>
    (splitsMany1 isMetricC r7).findSome? fun p8 =>
    (litP (": Limit ".toList) p8.2).bind fun r9 =>
    (splitsMany1 isDigitC r9).findSome? fun p10 =>
    (litP (", Used ".toList) p10.2).bind fun r11 =>
    (splitsMany1 isDigitC r11).findSome? fun p12 =>
    (litP (", Requested ".toList) p12.2).bind fun r13 =>
    (splitsMany1 isDigitC r13).findSome? fun p14 =>
    (litP (". Please try again in ".toList) p14.2).bind fun r15 =>
    (splitsMany1 isFloatC r15).findSome? fun p16 =>
    (litP ("s. Visit ".toList) p16.2).bind fun r17 =>
    (splitsMany1 isNonSpaceRe r17).findSome? fun p18 =>
    some ⟨p2.1, scty, p6.1, p8.1, p10.1, p12.1, p14.1, p16.1, p18.1⟩)

/-- `rateRe.FindStringSubmatch`: try every start position, left to right. -/
def rateFind : List Char → Option RateCaps
  | [] => matchRateAt []
  | c :: rest =>
    match matchRateAt (c :: rest) with
    | some r => some r
    | none => rateFind rest

/-! ## JSON body decoding (`encoding/json.Unmarshal` into the shell struct) -/

/-- JSON values, as far as the shell decoding observes them: array and object
payloads that are skipped carry no data, but they are still validated by the
parser below. -/
inductive Jval where
  | jnull
  | jbool (b : Bool)
  | jnum
  | jstr (s : List Char)
  | jarr
  | jobj (fields : List (List Char × Jval))

/-- JSON whitespace. -/
def jWs (c : Char) : Bool := c == ' ' || c == '\t' || c == '\r' || c == '\n'

def skipWs (s : List Char) : List Char := s.dropWhile jWs

def hexVal (c : Char) : Option Nat :=
  if 48 ≤ c.toNat ∧ c.toNat ≤ 57 then some (c.toNat - 48)
  else if 97 ≤ c.toNat ∧ c.toNat ≤ 102 then some (c.toNat - 87)
  else if 65 ≤ c.toNat ∧ c.toNat ≤ 70 then some (c.toNat - 55)
  else none

def hex4 (a b c d : Char) : Option Nat :=
  (hexVal a).bind fun va =>
  (hexVal b).bind fun vb =>
  (hexVal c).bind fun vc =>
  (hexVal d).map fun vd => va * 4096 + vb * 256 + vc * 16 + vd

def simpleEsc : Char → Option Char
  | '"' => some '"'
  | '\\' => some '\\'
  | '/' => some '/'
  | 'b' => some '\x08'
  | 'f' => some '\x0c'
  | 'n' => some '\n'
  | 'r' => some '\r'
  | 't' => some '\t'
  | _ => none

def consFst (c : Char) (o : Option (List Char × List Char)) :
    Option (List Char × List Char) :=
  o.map fun p => (c :: p.1, p.2)

/-- Body of a JSON string literal after the opening quote, following Go's
`unquote`: raw control characters are rejected, `\uXXXX` escapes combine
surrogate pairs and turn lone surrogates into U+FFFD. -/
def parseStringBody : Nat → List Char → Option (List Char × List Char)
  | 0, _ => none
  | fuel + 1, s =>
    match s with
    | [] => none
    | '"' :: rest => some ([], rest)
    | '\\' :: rest =>
      match rest with
      | 'u' :: h1 :: h2 :: h3 :: h4 :: rest2 =>
        match hex4 h1 h2 h3 h4 with
        | none => none
        | some v =>
          if 0xd800 ≤ v ∧ v ≤ 0xdfff then
            match rest2 with
            | '\\' :: 'u' :: g1 :: g2 :: g3 :: g4 :: rest3 =>
              match hex4 g1 g2 g3 g4 with
              | some w =>
                if 0xd800 ≤ v ∧ v ≤ 0xdbff ∧ 0xdc00 ≤ w ∧ w ≤ 0xdfff then
                  consFst (Char.ofNat (0x10000 + (v - 0xd800) * 0x400 + (w - 0xdc00)))
                    (parseStringBody fuel rest3)
                else consFst '�' (parseStringBody fuel rest2)
              | none => consFst '�' (parseStringBody fuel rest2)
            | _ => consFst '�' (parseStringBody fuel rest2)
          else consFst (Char.ofNat v) (parseStringBody fuel rest2)
      | e :: rest2 =>
        match simpleEsc e with
        | some r => consFst r (parseStringBody fuel rest2)
        | none => none
      | [] => none
    | c :: rest =>
      if c.toNat < 0x20 then none else consFst c (parseStringBody fuel rest)

def isDigit19 (c : Char) : Bool := 49 ≤ c.toNat && c.toNat ≤ 57

/-- Validate a JSON number (Go grammar) and return the rest of the input. -/
def parseNumTail (s0 : List Char) : Option (List Char) :=
  let s1 := match s0 with
    | '-' :: r => r
    | _ => s0
  let int? : Option (List Char) := match s1 with
    | '0' :: r => some r
    | c :: r => if isDigit19 c then some (r.dropWhile isDigitC) else none
    | [] => none
  int?.bind fun s2 =>
    let frac? : Option (List Char) := match s2 with
      | '.' :: r =>
        match r with
        | c :: _ => if isDigitC c then some (r.dropWhile isDigitC) else none
        | [] => none
      | _ => some s2
    frac?.bind fun s3 =>
      match s3 with
      | 'e' :: r | 'E' :: r =>
        let r2 := match r with
          | '+' :: r' => r'
          | '-' :: r' => r'
          | _ => r
        match r2 with
        | c :: _ => if isDigitC c then some (r2.dropWhile isDigitC) else none
        | [] => none
      | _ => some s3

/-- Parsing mode: a top-level value, the members of an object (with the
fields read so far), or the elements of an array. -/
inductive JMode where
  | top
  | members (first : Bool) (acc : List (List Char × Jval))
  | elems (first : Bool)

/-- Fuel-indexed JSON value parser (the fuel only bounds nesting; it is
called with more fuel than the input length, which a parse can never
exhaust since every nesting step consumes input). -/
def parseCore : Nat → JMode → List Char → Option (Jval × List Char)
  | 0, _, _ => none
  | fuel + 1, JMode.top, s0 =>
    match skipWs s0 with
    | '{' :: r => parseCore fuel (JMode.members true []) r
    | '[' :: r => parseCore fuel (JMode.elems true) r
    | '"' :: r => (parseStringBody (r.length + 1) r).map fun p => (Jval.jstr p.1, p.2)
    | 't' :: r => (litP ("rue".toList) r).map fun r2 => (Jval.jbool true, r2)
    | 'f' :: r => (litP ("alse".toList) r).map fun r2 => (Jval.jbool false, r2)
    | 'n' :: r => (litP ("ull".toList) r).map fun r2 => (Jval.jnull, r2)
    | c :: r =>
      if c == '-' || isDigitC c then
        (parseNumTail (c :: r)).map fun r2 => (Jval.jnum, r2)
      else none
    | [] => none
  | fuel + 1, JMode.members true acc, s0 =>
    match skipWs s0 with
    | '}' :: r => some (Jval.jobj acc.reverse, r)
    | '"' :: r =>
      (parseStringBody (r.length + 1) r).bind fun pk =>
      match skipWs pk.2 with
      | ':' :: r3 =>
        (parseCore fuel JMode.top r3).bind fun pv =>
        parseCore fuel (JMode.members false ((pk.1, pv.1) :: acc)) pv.2
      | _ => none
    | _ => none
  | fuel + 1, JMode.members false acc, s0 =>
    match skipWs s0 with
    | '}' :: r => some (Jval.jobj acc.reverse, r)
    | ',' :: r =>
      match skipWs r with
      | '"' :: r2 =>
        (parseStringBody (r2.length + 1) r2).bind fun pk =>
        match skipWs pk.2 with
        | ':' :: r3 =>
          (parseCore fuel JMode.top r3).bind fun pv =>
          parseCore fuel (JMode.members false ((pk.1, pv.1) :: acc)) pv.2
        | _ => none
      | _ => none
    | _ => none
  | fuel + 1, JMode.elems true, s0 =>
    match skipWs s0 with
    | ']' :: r => some (Jval.jarr, r)
    | _ =>
      (parseCore fuel JMode.top s0).bind fun pv =>
      parseCore fuel (JMode.elems false) pv.2
  | fuel + 1, JMode.elems false, s0 =>
    match skipWs s0 with
    | ']' :: r => some (Jval.jarr, r)
    | ',' :: r =>
      (parseCore fuel JMode.top r).bind fun pv =>
      parseCore fuel (JMode.elems false) pv.2
    | _ => none

/-- The inner `error` object of the decode shell. -/
structure ShellInner where
  Message : List Char := []
  Typ : List Char := []
  Param : Option (List Char) := none
  Code : List Char := []
deriving DecidableEq

/-- The union decode shell: nested `error` plus the flat fields. -/
structure Shell where
  Err : Option ShellInner := none
  Message : List Char := []
  Typ : List Char := []
  Param : Option (List Char) := none
  Code : List Char := []
deriving DecidableEq

/-- Case-insensitive field-name match (Go matches JSON keys to struct
fields ASCII case-insensitively; `name` is given lowercased). -/
def keyIs (k name : List Char) : Bool := lowerStr k == name

def setInnerField (i : ShellInner) (k : List Char) (v : Jval) : Option ShellInner :=
  if keyIs k ("message".toList) then
    match v with
    | Jval.jstr s => some { i with Message := s }
    | Jval.jnull => some i
    | _ => none
  else if keyIs k ("type".toList) then
    match v with
    | Jval.jstr s => some { i with Typ := s }
    | Jval.jnull => some i
    | _ => none
  else if keyIs k ("param".toList) then
    match v with
    | Jval.jstr s => some { i with Param := some s }
    | Jval.jnull => some { i with Param := none }
    | _ => none
  else if keyIs k ("code".toList) then
    match v with
    | Jval.jstr s => some { i with Code := s }
    | Jval.jnull => some i
    | _ => none
  else some i

def unmarshalInner (start : ShellInner) (fs : List (List Char × Jval)) :
    Option ShellInner :=
  fs.foldl (fun acc kv => acc.bind fun i => setInnerField i kv.1 kv.2) (some start)

def setShellField (sh : Shell) (k : List Char) (v : Jval) : Option Shell :=
  if keyIs k ("error".toList) then
    match v with
    | Jval.jnull => some { sh with Err := none }
    | Jval.jobj fs => (unmarshalInner (sh.Err.getD {}) fs).map fun i => { sh with Err := some i }
    | _ => none
  else if keyIs k ("message".toList) then
    match v with
    | Jval.jstr s => some { sh with Message := s }
    | Jval.jnull => some sh
    | _ => none
  else if keyIs k ("type".toList) then
    match v with
    | Jval.jstr s => some { sh with Typ := s }
    | Jval.jnull => some sh
    | _ => none
  else if keyIs k ("param".toList) then
    match v with
    | Jval.jstr s => some { sh with Param := some s }
    | Jval.jnull => some { sh with Param := none }
    | _ => none
  else if keyIs k ("code".toList) then
    match v with
    | Jval.jstr s => some { sh with Code := s }
    | Jval.jnull => some sh
    | _ => none
  else some sh

def unmarshalShell : Jval → Option Shell
  | Jval.jnull => some {}
  | Jval.jobj fs =>
    fs.foldl (fun acc kv => acc.bind fun sh => setShellField sh kv.1 kv.2) (some {})
  | _ => none

/-- `json.Unmarshal(s, &shell)`: parse one value, allow only trailing
whitespace, then fold the fields into the shell. -/
def decodeShell (s : List Char) : Option Shell :=
  (parseCore (s.length + 2) JMode.top s).bind fun p =>
  if skipWs p.2 = [] then unmarshalShell p.1 else none

/-! ## The typed error record -/

/-- `OpenAIRateInfo`. `RetryAfter` is a `time.Duration` in integer
nanoseconds. -/
structure OpenAIRateInfo where
  Model : List Char
  ScopeType : List Char
  ScopeID : List Char
  Metric : List Char
  Limit : Nat
  Used : Nat
  Requested : Nat
  RetryAfter : Int
  DocsURL : List Char
deriving DecidableEq

/-- `OpenAIError` (`Typ` stands for the Go field `Type`, which is not a
legal Lean field name). -/
structure OpenAIError where
  Method : List Char
  URL : List Char
  Status : Nat
  Reason : List Char
  Message : List Char
  Typ : List Char
  Param : Option (List Char)
  Code : List Char
  RateInfo : Option OpenAIRateInfo
deriving DecidableEq

/-- `(*OpenAIError).Error()`; a nil receiver renders as `<nil>`.
`strconv.Itoa` is `Nat.toDigits 10`. -/
def renderError : Option OpenAIError → List Char
  | none => "<nil>".toList
  | some e =>
    e.Method ++ (" ".toList) ++ e.URL ++ (": ".toList) ++ Nat.toDigits 10 e.Status ++
    (" ".toList) ++ e.Reason ++ (" - ".toList) ++ e.Message

/-- `(*OpenAIError).IsRateLimit`; `none` is the nil receiver. -/
def isRateLimit : Option OpenAIError → Bool
  | none => false
  | some e =>
    if e.Status = 429 then true
    else if e.Code = ("rate_limit_exceeded".toList) then true
    else goContains (lowerStr e.Message) ("rate limit".toList)

/-- `(*OpenAIError).IsAuth`. -/
def isAuth : Option OpenAIError → Bool
  | none => false
  | some e =>
    if e.Status = 401 ∨ e.Status = 403 then true
    else if e.Code = ("invalid_api_key".toList) ∨ e.Code = ("invalid_api_key_header".toList) ∨
        e.Code = ("account_deactivated".toList) ∨ e.Code = ("organization_deactivated".toList)
      then true
    else false

/-- `(*OpenAIError).IsServerError`. -/
def isServerError : Option OpenAIError → Bool
  | none => false
  | some e => decide (500 ≤ e.Status ∧ e.Status ≤ 599)

/-! ## Retry-after durations

Both parsers run `strconv.ParseFloat` on the `([0-9.]+)` capture, ignore its
error (which leaves `sec = 0`), and convert
`time.Duration(sec * float64(time.Second))` — a float-to-int64 conversion
that truncates toward zero.  The plain parser first applies `math.Round`
when `sec > 0`.  The models below compute the value of the decimal literal
exactly over the rationals; the IEEE-754 double rounding of the Go
intermediate is not modelled (it only perturbs the nanosecond count by a
relative 2⁻⁵²). -/

def dotCount (s : List Char) : Nat := s.countP (fun c => c == '.')

def intDigitsOf (ds : List Char) : List Char := ds.takeWhile (fun c => !(c == '.'))

def fracDigitsOf (ds : List Char) : List Char :=
  (ds.dropWhile (fun c => !(c == '.'))).drop 1

/-- `time.Duration(sec * float64(time.Second))` for the JSON dialect:
nanoseconds, truncated toward zero. -/
def durNsOfSecLit (ds : List Char) : Int :=
  if 2 ≤ dotCount ds then 0
  else
    let i := intDigitsOf ds
    let f := fracDigitsOf ds
    if i.length + f.length = 0 then 0
    else (natOfDigits i : Int) * 1000000000 + ((natOfDigits f * 1000000000) / 10 ^ f.length : Nat)

/-- The plain dialect first rounds positive `sec` half away from zero to a
whole second (`math.Round`). -/
def plainDurNsOfSecLit (ds : List Char) : Int :=
  if 2 ≤ dotCount ds then 0
  else
    let i := intDigitsOf ds
    let f := fracDigitsOf ds
    if i.length + f.length = 0 then 0
    else
      ((if 10 ^ f.length ≤ 2 * natOfDigits f then natOfDigits i + 1 else natOfDigits i : Nat) :
        Int) * 1000000000

/-! ## `ParseOpenAIJsonError` -/

def headerToError (mth url st rsn : List Char) : OpenAIError :=
  { Method := mth, URL := url, Status := natOfDigits st, Reason := trimSpace rsn,
    Message := [], Typ := [], Param := none, Code := [], RateInfo := none }

def riOfCaps (rm : RateCaps) (retry : Int) : OpenAIRateInfo :=
  { Model := rm.modelV, ScopeType := rm.scopeTypeV, ScopeID := rm.scopeIdV,
    Metric := trimSpace rm.metricV, Limit := goAtoiSat rm.limitD,
    Used := goAtoiSat rm.usedD, Requested := goAtoiSat rm.reqD,
    RetryAfter := retry, DocsURL := rm.urlV }

/-- Copy the decoded shell into the record: the nested `error` form wins
when present, otherwise the flat fields are used. -/
def chooseShell (e : OpenAIError) (sh : Shell) : OpenAIError :=
  match sh.Err with
  | some inner =>
    { e with Message := inner.Message, Typ := inner.Typ, Param := inner.Param,
             Code := inner.Code }
  | none =>
    { e with Message := sh.Message, Typ := sh.Typ, Param := sh.Param, Code := sh.Code }

/-- Step 4 of the JSON parser: pull rate-limit details out of the message. -/
def addRateInfoJson (e : OpenAIError) : OpenAIError :=
  match rateFind e.Message with
  | some rm => { e with RateInfo := some (riOfCaps rm (durNsOfSecLit rm.secD)) }
  | none => e

/-- The inferred-code rule: a sensible default code on 429 + rate limit,
only when the code is still empty. -/
def applyInferredCode (e : OpenAIError) : OpenAIError :=
  if e.Code = [] ∧ e.Status = 429 ∧ goContains (lowerStr e.Message) ("rate limit".toList) = true
  then { e with Code := ("rate_limit_exceeded".toList) }
  else e

def finishShell (e : OpenAIError) (sh : Shell) : OpenAIError :=
  applyInferredCode (addRateInfoJson (chooseShell e sh))

/-- `\n`/`\t` unescaping applied to the trimmed body substring before
decoding. -/
def mkJsonPart (bodyRaw : List Char) : List Char :=
  replEsc 't' '\t' (replEsc 'n' '\n' (trimSpace bodyRaw))

/-- Steps 3–4 of the JSON parser on the prepared body substring, including
the truncation-tolerance retry at the last `}`. -/
def processBody (e : OpenAIError) (jsonPart : List Char) : OpenAIError :=
  match decodeShell jsonPart with
  | some sh => finishShell e sh
  | none =>
    match lastIdxOf '}' jsonPart with
    | some last =>
      if 0 < last then
        match decodeShell (jsonPart.take (last + 1)) with
        | some sh => finishShell e sh
        | none => { e with Message := trimSpace jsonPart }
      else { e with Message := trimSpace jsonPart }
    | none => { e with Message := trimSpace jsonPart }

/-- `ParseOpenAIJsonError`; `none` is the non-nil `error` return
("unrecognized header format"). -/
def ParseOpenAIJsonError (raw0 : List Char) : Option OpenAIError :=
  match jsonHead (trimSpace raw0) with
  | none => none
  | some h =>
    match firstIdxOf '{' (trimSpace raw0) with
    | none => some (headerToError h.mth h.url h.st h.rsn)
    | some i =>
      some (processBody (headerToError h.mth h.url h.st h.rsn)
        (mkJsonPart ((trimSpace raw0).drop i)))

/-! ## `ParseOpenAIPlainError` -/

/-- The record built from the plain header captures. -/
def plainHeaderError (h : HeadPlain) : OpenAIError :=
  { Method := h.mth, URL := h.url, Status := natOfDigits h.st,
    Reason := trimSpace h.rsn, Message := trimSpace h.msg, Typ := [],
    Param := none, Code := [], RateInfo := none }

/-- The plain parser's `Type` heuristic, from the metric of the extracted
rate info. -/
def applyMetricType (e1 : OpenAIError) (ri : OpenAIRateInfo) : OpenAIError :=
  if goContains (lowerStr ri.Metric) ("token".toList) then { e1 with Typ := ("tokens".toList) }
  else if goContains (lowerStr ri.Metric) ("requests".toList) then
    { e1 with Typ := ("requests".toList) }
  else { e1 with Typ := [] }

/-- The plain parser's code default on 429 (it runs only when the
rate-limit grammar matched). -/
def applyPlainCode (e2 : OpenAIError) : OpenAIError :=
  if e2.Status = 429 ∧ goContains (lowerStr e2.Message) ("rate limit".toList) = true
  then { e2 with Code := ("rate_limit_exceeded".toList) }
  else e2

/-- Result of the plain parser when the rate-limit grammar matched the
message: attach the rate info, derive `Type` from the metric, default the
code on 429. -/
def plainRmResult (h : HeadPlain) (rm : RateCaps) : OpenAIError :=
  applyPlainCode (applyMetricType
    ({ plainHeaderError h with
       RateInfo := some (riOfCaps rm (plainDurNsOfSecLit rm.secD)) })
    (riOfCaps rm (plainDurNsOfSecLit rm.secD)))

/-- `ParseOpenAIPlainError`; `none` is the non-nil `error` return
("unrecognized error format"). -/
def ParseOpenAIPlainError (raw0 : List Char) : Option OpenAIError :=
  match plainHead (trimSpace raw0) with
  | none => none
  | some h =>
    match rateFind (plainHeaderError h).Message with
    | none => some (plainHeaderError h)
    | some rm => some (plainRmResult h rm)

/-! ## The retry driver (`generateJsonContent`) -/

/-- The retry decision on one parsed error: `some d` means sleep `d`
nanoseconds and retry (`e.RateInfo.RetryAfter + 100*time.Millisecond`),
`none` means surface the error. -/
def retryDecision (e : OpenAIError) : Option Int :=
  match e.RateInfo with
  | some ri =>
    if e.Status = 429 ∧ e.Code = ("rate_limit_exceeded".toList) then
      some (ri.RetryAfter + 100000000)
    else none
  | none => none

/-- The driver's parse of the raw error: the JSON parser, falling back to
the plain parser when the JSON header is rejected. -/
def parseEither (raw : List Char) : Option OpenAIError :=
  match ParseOpenAIJsonError raw with
  | some e => some e
  | none => ParseOpenAIPlainError raw

/-- Parse the raw error string, then decide; `none` also covers both
parsers rejecting the header. -/
def retryDelayNs (raw : List Char) : Option Int :=
  (parseEither raw).bind retryDecision

/-- Observable outcome of one `generateJsonContent` run: whether the chat
call eventually succeeded, the raw error surfaced otherwise, the sleeps
performed (in order, in nanoseconds), and how many attempts were made. -/
structure GenResult where
  success : Bool
  surfaced : Option (List Char)
  sleeps : List Int
  attempts : Nat
deriving DecidableEq

/-- The `for range 3` loop: `att i` is the outcome of attempt `i` (`none`
for success, `some raw` for a failure with raw error string `raw`).  A
retryable failure sleeps even when it exhausts the loop, exactly as the Go
code does. -/
def genLoop (att : Nat → Option (List Char)) : Nat → Nat → List Int → GenResult
  | i, 0, acc => ⟨true, none, acc.reverse, i⟩
  | i, r + 1, acc =>
    match att i with
    | none => ⟨true, none, acc.reverse, i + 1⟩
    | some raw =>
      match retryDelayNs raw with
      | none => ⟨false, some raw, acc.reverse, i + 1⟩
      | some d =>
        match r with
        | 0 => ⟨false, some raw, (d :: acc).reverse, i + 1⟩
        | r' + 1 => genLoop att (i + 1) (r' + 1) (d :: acc)

/-- `generateJsonContent`, abstracted over the outcomes of the (external)
chat-completion calls. -/
def generateJsonContent (att : Nat → Option (List Char)) : GenResult :=
  genLoop att 0 3 []

/-! ## Basic lemmas about the string utilities -/

theorem hasPref_ex {p s : List Char} (h : hasPref p s = true) : ∃ t, s = p ++ t := by
  induction p generalizing s with
  | nil => exact ⟨s, rfl⟩
  | cons a ps ih =>
    cases s with
    | nil => simp [hasPref] at h
    | cons c cs =>
      simp only [hasPref, Bool.and_eq_true, beq_iff_eq] at h
      obtain ⟨t, ht⟩ := ih h.2
      exact ⟨t, by rw [ht, h.1]; simp⟩

theorem hasPref_self_append (p t : List Char) : hasPref p (p ++ t) = true := by
  induction p with
  | nil => rfl
  | cons a ps ih => simp [hasPref, ih]

theorem hasPref_append_of {q r : List Char} (t : List Char) (h : hasPref q r = true) :
    hasPref q (r ++ t) = true := by
  obtain ⟨u, hu⟩ := hasPref_ex h
  rw [hu, List.append_assoc]
  exact hasPref_self_append q (u ++ t)

theorem goContains_of_hasPref {s pat : List Char} (h : hasPref pat s = true) :
    goContains s pat = true := by
  cases s <;> simp [goContains, h]

theorem goContains_cons_of {rest pat : List Char} (c : Char)
    (h : goContains rest pat = true) : goContains (c :: rest) pat = true := by
  simp [goContains, h]

/-! ## A successful rate-limit match forces "rate limit" in the lowered message -/

theorem matchRateAt_startsWith {s : List Char} {r : RateCaps}
    (h : matchRateAt s = some r) : hasPref ("Rate limit reached for ".toList) s = true := by
  by_cases hp : hasPref ("Rate limit reached for ".toList) s = true
  · exact hp
  · exfalso
    have hl : litP ("Rate limit reached for ".toList) s = none := by
      unfold litP
      rw [if_neg]
      exact hp
    unfold matchRateAt at h
    rw [hl, Option.none_bind] at h
    exact Option.noConfusion h

theorem rateFind_contains {m : List Char} {rm : RateCaps}
    (h : rateFind m = some rm) :
    goContains (lowerStr m) ("rate limit".toList) = true := by
  induction m with
  | nil =>
    exfalso
    have hl : litP ("Rate limit reached for ".toList) ([] : List Char) = none := by decide
    unfold rateFind matchRateAt at h
    rw [hl, Option.none_bind] at h
    exact Option.noConfusion h
  | cons c rest ih =>
    unfold rateFind at h
    cases hm : matchRateAt (c :: rest) with
    | some r =>
      have hp := matchRateAt_startsWith hm
      obtain ⟨t, ht⟩ := hasPref_ex hp
      have hlow : hasPref ("rate limit".toList) (lowerStr (c :: rest)) = true := by
        rw [ht]
        unfold lowerStr
        rw [List.map_append]
        have h1 : List.map lowerAscii ("Rate limit reached for ".toList) =
            ("rate limit reached for ".toList) := by decide
        rw [h1]
        exact hasPref_append_of _ (by decide)
      exact goContains_of_hasPref hlow
    | none =>
      rw [hm] at h
      have h2 := ih h
      have : lowerStr (c :: rest) = lowerAscii c :: lowerStr rest := rfl
      rw [this]
      exact goContains_cons_of _ h2

/-! ## Field-preservation lemmas -/

theorem chooseShell_hdr (e : OpenAIError) (sh : Shell) :
    (chooseShell e sh).Method = e.Method ∧ (chooseShell e sh).URL = e.URL ∧
    (chooseShell e sh).Status = e.Status ∧ (chooseShell e sh).Reason = e.Reason ∧
    (chooseShell e sh).RateInfo = e.RateInfo := by
  unfold chooseShell
  cases sh.Err <;> simp

theorem addRateInfoJson_hdr (e : OpenAIError) :
    (addRateInfoJson e).Method = e.Method ∧ (addRateInfoJson e).URL = e.URL ∧
    (addRateInfoJson e).Status = e.Status ∧ (addRateInfoJson e).Reason = e.Reason ∧
    (addRateInfoJson e).Message = e.Message ∧ (addRateInfoJson e).Code = e.Code := by
  unfold addRateInfoJson
  cases rateFind e.Message <;> simp

theorem applyInferredCode_hdr (e : OpenAIError) :
    (applyInferredCode e).Method = e.Method ∧ (applyInferredCode e).URL = e.URL ∧
    (applyInferredCode e).Status = e.Status ∧ (applyInferredCode e).Reason = e.Reason ∧
    (applyInferredCode e).Message = e.Message ∧ (applyInferredCode e).RateInfo = e.RateInfo := by
  unfold applyInferredCode
  split <;> simp

theorem finishShell_hdr (e : OpenAIError) (sh : Shell) :
    (finishShell e sh).Method = e.Method ∧ (finishShell e sh).URL = e.URL ∧
    (finishShell e sh).Status = e.Status ∧ (finishShell e sh).Reason = e.Reason := by
  unfold finishShell
  obtain ⟨a1, a2, a3, a4, _, _⟩ := applyInferredCode_hdr (addRateInfoJson (chooseShell e sh))
  obtain ⟨b1, b2, b3, b4, _, _⟩ := addRateInfoJson_hdr (chooseShell e sh)
  obtain ⟨c1, c2, c3, c4, _⟩ := chooseShell_hdr e sh
  exact ⟨by rw [a1, b1, c1], by rw [a2, b2, c2], by rw [a3, b3, c3], by rw [a4, b4, c4]⟩

theorem processBody_hdr (e : OpenAIError) (jp : List Char) :
    (processBody e jp).Method = e.Method ∧ (processBody e jp).URL = e.URL ∧
    (processBody e jp).Status = e.Status ∧ (processBody e jp).Reason = e.Reason := by
  unfold processBody
  cases decodeShell jp with
  | some sh => exact finishShell_hdr e sh
  | none =>
    cases lastIdxOf '}' jp with
    | none => simp
    | some last =>
      by_cases hl : 0 < last
      · simp only [if_pos hl]
        cases decodeShell (jp.take (last + 1)) with
        | some sh => exact finishShell_hdr e sh
        | none => simp
      · simp [if_neg hl]

theorem isRateLimit_of_contains (e : OpenAIError)
    (h : goContains (lowerStr e.Message) ("rate limit".toList) = true) :
    isRateLimit (some e) = true := by
  simp only [isRateLimit]
  split_ifs with h1 h2
  · rfl
  · rfl
  · exact h

/-! ## Case-analysis lemmas for the two parsers -/

theorem parseJson_cases {raw : List Char} {e : OpenAIError}
    (h : ParseOpenAIJsonError raw = some e) :
    ∃ hh, jsonHead (trimSpace raw) = some hh ∧
      (e = headerToError hh.mth hh.url hh.st hh.rsn ∨
       ∃ i, firstIdxOf '{' (trimSpace raw) = some i ∧
         e = processBody (headerToError hh.mth hh.url hh.st hh.rsn)
               (mkJsonPart ((trimSpace raw).drop i))) := by
  unfold ParseOpenAIJsonError at h
  cases hj : jsonHead (trimSpace raw) with
  | none => rw [hj] at h; exact Option.noConfusion h
  | some hh =>
    rw [hj] at h
    cases hi : firstIdxOf '{' (trimSpace raw) with
    | none =>
      rw [hi] at h
      exact ⟨hh, rfl, Or.inl (Option.some.inj h).symm⟩
    | some i =>
      rw [hi] at h
      exact ⟨hh, rfl, Or.inr ⟨i, rfl, (Option.some.inj h).symm⟩⟩


theorem parsePlain_cases {raw : List Char} {e : OpenAIError}
    (h : ParseOpenAIPlainError raw = some e) :
    ∃ hh, plainHead (trimSpace raw) = some hh ∧
      ((rateFind (plainHeaderError hh).Message = none ∧ e = plainHeaderError hh) ∨
       ∃ rm, rateFind (plainHeaderError hh).Message = some rm ∧ e = plainRmResult hh rm) := by
  unfold ParseOpenAIPlainError at h
  cases hp : plainHead (trimSpace raw) with
  | none => rw [hp] at h; exact Option.noConfusion h
  | some hh =>
    simp only [hp] at h
    cases hr : rateFind (plainHeaderError hh).Message with
    | none =>
      simp only [hr] at h
      exact ⟨hh, rfl, Or.inl ⟨hr, (Option.some.inj h).symm⟩⟩
    | some rm =>
      simp only [hr] at h
      exact ⟨hh, rfl, Or.inr ⟨rm, hr, (Option.some.inj h).symm⟩⟩

/-! ## Characterization of the body-processing branches -/

theorem addRateInfoJson_eq_none {e : OpenAIError} (hr : rateFind e.Message = none) :
    addRateInfoJson e = e := by
  unfold addRateInfoJson
  rw [hr]

theorem addRateInfoJson_eq_some {e : OpenAIError} {rm : RateCaps}
    (hr : rateFind e.Message = some rm) :
    addRateInfoJson e = { e with RateInfo := some (riOfCaps rm (durNsOfSecLit rm.secD)) } := by
  unfold addRateInfoJson
  rw [hr]

theorem processBody_eq_decode {e : OpenAIError} {jp : List Char} {sh : Shell}
    (hd : decodeShell jp = some sh) : processBody e jp = finishShell e sh := by
  unfold processBody
  rw [hd]

theorem processBody_eq_retry {e : OpenAIError} {jp : List Char} {last : Nat} {sh : Shell}
    (hd : decodeShell jp = none) (hl : lastIdxOf '}' jp = some last) (hpos : 0 < last)
    (h2 : decodeShell (jp.take (last + 1)) = some sh) :
    processBody e jp = finishShell e sh := by
  simp [processBody, hd, hl, hpos, h2]

theorem processBody_eq_fb_nobrace {e : OpenAIError} {jp : List Char}
    (hd : decodeShell jp = none) (hl : lastIdxOf '}' jp = none) :
    processBody e jp = { e with Message := trimSpace jp } := by
  unfold processBody
  rw [hd, hl]

theorem processBody_eq_fb_zero {e : OpenAIError} {jp : List Char} {last : Nat}
    (hd : decodeShell jp = none) (hl : lastIdxOf '}' jp = some last) (hpos : ¬ 0 < last) :
    processBody e jp = { e with Message := trimSpace jp } := by
  simp [processBody, hd, hl, hpos]

theorem processBody_eq_fb_retryfail {e : OpenAIError} {jp : List Char} {last : Nat}
    (hd : decodeShell jp = none) (hl : lastIdxOf '}' jp = some last) (hpos : 0 < last)
    (h2 : decodeShell (jp.take (last + 1)) = none) :
    processBody e jp = { e with Message := trimSpace jp } := by
  simp [processBody, hd, hl, hpos, h2]

/-! ## Field preservation through the plain parser's final steps -/

theorem applyMetricType_fields (e1 : OpenAIError) (ri : OpenAIRateInfo) :
    (applyMetricType e1 ri).Method = e1.Method ∧ (applyMetricType e1 ri).URL = e1.URL ∧
    (applyMetricType e1 ri).Status = e1.Status ∧ (applyMetricType e1 ri).Reason = e1.Reason ∧
    (applyMetricType e1 ri).Message = e1.Message ∧
    (applyMetricType e1 ri).RateInfo = e1.RateInfo ∧
    (applyMetricType e1 ri).Code = e1.Code := by
  unfold applyMetricType
  split_ifs <;> simp

theorem applyPlainCode_fields (e2 : OpenAIError) :
    (applyPlainCode e2).Method = e2.Method ∧ (applyPlainCode e2).URL = e2.URL ∧
    (applyPlainCode e2).Status = e2.Status ∧ (applyPlainCode e2).Reason = e2.Reason ∧
    (applyPlainCode e2).Message = e2.Message ∧
    (applyPlainCode e2).RateInfo = e2.RateInfo ∧ (applyPlainCode e2).Typ = e2.Typ := by
  unfold applyPlainCode
  split_ifs <;> simp

theorem plainRmResult_fields (hh : HeadPlain) (rm : RateCaps) :
    (plainRmResult hh rm).Method = (plainHeaderError hh).Method ∧
    (plainRmResult hh rm).URL = (plainHeaderError hh).URL ∧
    (plainRmResult hh rm).Status = (plainHeaderError hh).Status ∧
    (plainRmResult hh rm).Reason = (plainHeaderError hh).Reason ∧
    (plainRmResult hh rm).Message = (plainHeaderError hh).Message := by
  unfold plainRmResult
  obtain ⟨a1, a2, a3, a4, a5, _, _⟩ := applyPlainCode_fields (applyMetricType
    ({ plainHeaderError hh with RateInfo := some (riOfCaps rm (plainDurNsOfSecLit rm.secD)) })
    (riOfCaps rm (plainDurNsOfSecLit rm.secD)))
  obtain ⟨b1, b2, b3, b4, b5, _, _⟩ := applyMetricType_fields
    ({ plainHeaderError hh with RateInfo := some (riOfCaps rm (plainDurNsOfSecLit rm.secD)) })
    (riOfCaps rm (plainDurNsOfSecLit rm.secD))
  refine ⟨?_, ?_, ?_, ?_, ?_⟩
  · rw [a1, b1]
  · rw [a2, b2]
  · rw [a3, b3]
  · rw [a4, b4]
  · rw [a5, b5]

/-! ## RateInfo presence forces a rate-limit message -/

theorem finishShell_rate (e : OpenAIError) (sh : Shell) (h0 : e.RateInfo = none)
    (h : (finishShell e sh).RateInfo.isSome = true) :
    goContains (lowerStr (finishShell e sh).Message) ("rate limit".toList) = true := by
  unfold finishShell at h ⊢
  cases hr : rateFind (chooseShell e sh).Message with
  | none =>
    exfalso
    rw [addRateInfoJson_eq_none hr] at h
    rw [(applyInferredCode_hdr (chooseShell e sh)).2.2.2.2.2] at h
    rw [(chooseShell_hdr e sh).2.2.2.2, h0] at h
    simp at h
  | some rm =>
    rw [addRateInfoJson_eq_some hr]
    rw [(applyInferredCode_hdr _).2.2.2.2.1]
    simpa using rateFind_contains hr

theorem processBody_rate (e : OpenAIError) (jp : List Char) (h0 : e.RateInfo = none)
    (h : (processBody e jp).RateInfo.isSome = true) :
    goContains (lowerStr (processBody e jp).Message) ("rate limit".toList) = true := by
  cases hd : decodeShell jp with
  | some sh =>
    rw [processBody_eq_decode hd] at h ⊢
    exact finishShell_rate e sh h0 h
  | none =>
    cases hl : lastIdxOf '}' jp with
    | none =>
      rw [processBody_eq_fb_nobrace hd hl] at h
      simp [h0] at h
    | some last =>
      by_cases hpos : 0 < last
      · cases h2 : decodeShell (jp.take (last + 1)) with
        | some sh =>
          rw [processBody_eq_retry hd hl hpos h2] at h ⊢
          exact finishShell_rate e sh h0 h
        | none =>
          rw [processBody_eq_fb_retryfail hd hl hpos h2] at h
          simp [h0] at h
      · rw [processBody_eq_fb_zero hd hl hpos] at h
        simp [h0] at h

/-! ## Claim C9 -/

/-- C9: on a non-nil record, `IsRateLimit` is true exactly when status is
429, or the code is `rate_limit_exceeded`, or the lowered message contains
"rate limit"; and the nil record answers false to all three classifiers. -/
theorem c9_classifier_characterization :
    (∀ e : OpenAIError, isRateLimit (some e) = true ↔
      (e.Status = 429 ∨ e.Code = ("rate_limit_exceeded".toList) ∨
        goContains (lowerStr e.Message) ("rate limit".toList) = true)) ∧
    isRateLimit none = false ∧ isAuth none = false ∧ isServerError none = false := by
  refine ⟨fun e => ?_, rfl, rfl, rfl⟩
  simp only [isRateLimit]
  split_ifs with h1 h2
  · simp [h1]
  · simp [h2]
  · constructor
    · intro h
      exact Or.inr (Or.inr h)
    · rintro (h | h | h)
      · exact absurd h h1
      · exact absurd h h2
      · exact h

def c9we : OpenAIError :=
  { Method := ("POST".toList), URL := ("https://x".toList), Status := 429,
    Reason := [], Message := [], Typ := [], Param := none, Code := [], RateInfo := none }

/-- Witness for C9 at a concrete 429 record. -/
theorem c9_witness : isRateLimit (some c9we) = true :=
  (c9_classifier_characterization.1 c9we).mpr (Or.inl rfl)

/-! ## Claim C7 -/

/-- C7: each parser yields a record exactly when its header pattern
matches the whitespace-trimmed input (otherwise it yields only the
header-unrecognized error), and after a JSON header match every body path
returns a record with no error signal. -/
theorem c7_header_gate :
    ∀ raw : List Char,
      (ParseOpenAIJsonError raw).isSome = (jsonHead (trimSpace raw)).isSome ∧
      (ParseOpenAIPlainError raw).isSome = (plainHead (trimSpace raw)).isSome := by
  intro raw
  constructor
  · unfold ParseOpenAIJsonError
    cases hj : jsonHead (trimSpace raw) with
    | none => simp
    | some h => cases hi : firstIdxOf '{' (trimSpace raw) <;> simp [hi]
  · unfold ParseOpenAIPlainError
    cases hp : plainHead (trimSpace raw) with
    | none => simp
    | some h => cases hr : rateFind (plainHeaderError h).Message <;> simp [hr]

/-- Witness for C7 at a concrete rejected input. -/
theorem c7_witness :
    (ParseOpenAIJsonError ("hello world".toList)).isSome =
      (jsonHead (trimSpace ("hello world".toList))).isSome ∧
    (ParseOpenAIPlainError ("hello world".toList)).isSome =
      (plainHead (trimSpace ("hello world".toList))).isSome :=
  c7_header_gate ("hello world".toList)

/-! ## Claim C1 -/

def c1cex : List Char :=
  ("POST \"https://x\": 500 Internal Server Error \x7b\"message\":\"Rate limit reached for m in organization o on tokens per min (TPM): Limit 1, Used 1, Requested 1. Please try again in 1s. Visit https://d\"\x7d").toList

set_option maxRecDepth 100000 in
/-- C1 fails as stated: this accepted JSON input yields a record whose
`RateInfo` is present while `Status` is 500, not 429. -/
theorem c1_counterexample :
    (ParseOpenAIJsonError c1cex).map (fun e => (e.Status, e.RateInfo.isSome)) =
      some (500, true) ∧ ¬(500 = 429) := by
  constructor
  · decide
  · decide

/-- C1 (amended): for records produced by either parser, a present
`RateInfo` does force `IsRateLimit` to answer true — but not `Status = 429`,
which the counterexample refutes. -/
theorem c1_rateinfo_forces_ratelimit :
    ∀ (raw : List Char) (e : OpenAIError),
      (ParseOpenAIJsonError raw = some e ∨ ParseOpenAIPlainError raw = some e) →
      e.RateInfo.isSome = true → isRateLimit (some e) = true := by
  intro raw e hp hri
  rcases hp with hj | hpl
  · obtain ⟨hh, _, hcase⟩ := parseJson_cases hj
    rcases hcase with rfl | ⟨i, _, rfl⟩
    · simp [headerToError] at hri
    · exact isRateLimit_of_contains _
        (processBody_rate _ _ (by simp [headerToError]) hri)
  · obtain ⟨hh, _, hcase⟩ := parsePlain_cases hpl
    rcases hcase with ⟨_, rfl⟩ | ⟨rm, hr, rfl⟩
    · simp [plainHeaderError] at hri
    · apply isRateLimit_of_contains
      rw [(plainRmResult_fields hh rm).2.2.2.2]
      exact rateFind_contains hr

def c1win : List Char :=
  ("POST \"https://y\": 429 Too Many Requests \x7b\"message\":\"Rate limit reached for m in project p on requests per min (RPM): Limit 2, Used 2, Requested 1. Please try again in 2s. Visit https://d\"\x7d").toList

set_option maxRecDepth 100000 in
/-- Witness for the amended C1 at a concrete accepted input with
`RateInfo` present. -/
theorem c1_witness : isRateLimit (ParseOpenAIJsonError c1win) = true := by
  have h : ∃ e, ParseOpenAIJsonError c1win = some e ∧ e.RateInfo.isSome = true := by
    cases he : ParseOpenAIJsonError c1win with
    | none => exact absurd he (by decide)
    | some e =>
      refine ⟨e, rfl, ?_⟩
      have hmap : (ParseOpenAIJsonError c1win).map (fun x => x.RateInfo.isSome) = some true := by
        decide
      rw [he] at hmap
      simpa using hmap
  obtain ⟨e, he, hri⟩ := h
  rw [he]
  exact c1_rateinfo_forces_ratelimit c1win e (Or.inl he) hri

/-! ## The code chosen by the union shell -/

/-- The code the decoded body carries: the nested `error` form wins. -/
def shellChosenCode (sh : Shell) : List Char :=
  match sh.Err with
  | some inner => inner.Code
  | none => sh.Code

/-- The message the decoded body carries: the nested `error` form wins. -/
def shellChosenMessage (sh : Shell) : List Char :=
  match sh.Err with
  | some inner => inner.Message
  | none => sh.Message

theorem chooseShell_code_msg (e : OpenAIError) (sh : Shell) :
    (chooseShell e sh).Code = shellChosenCode sh ∧
    (chooseShell e sh).Message = shellChosenMessage sh := by
  unfold chooseShell shellChosenCode shellChosenMessage
  cases sh.Err <;> simp

theorem applyInferredCode_eq_of_ne {e : OpenAIError} (h : ¬ e.Code = []) :
    applyInferredCode e = e := by
  unfold applyInferredCode
  rw [if_neg]
  rintro ⟨h1, -, -⟩
  exact h h1

theorem applyInferredCode_eq_of_fire {e : OpenAIError} (h1 : e.Code = []) (h2 : e.Status = 429)
    (h3 : goContains (lowerStr e.Message) ("rate limit".toList) = true) :
    applyInferredCode e = { e with Code := ("rate_limit_exceeded".toList) } := by
  unfold applyInferredCode
  rw [if_pos ⟨h1, h2, h3⟩]

theorem applyPlainCode_eq_of_fire {e2 : OpenAIError} (h1 : e2.Status = 429)
    (h2 : goContains (lowerStr e2.Message) ("rate limit".toList) = true) :
    applyPlainCode e2 = { e2 with Code := ("rate_limit_exceeded".toList) } := by
  unfold applyPlainCode
  rw [if_pos ⟨h1, h2⟩]

/-- The plain parser's final code when the grammar matched, status is 429
and the message contains "rate limit". -/
theorem plainRmResult_code (hh : HeadPlain) (rm : RateCaps)
    (hst : (plainHeaderError hh).Status = 429)
    (hmsg : goContains (lowerStr (plainHeaderError hh).Message) ("rate limit".toList) = true) :
    (plainRmResult hh rm).Code = ("rate_limit_exceeded".toList) := by
  unfold plainRmResult
  rw [applyPlainCode_eq_of_fire]
  · rw [(applyMetricType_fields _ _).2.2.1]
    simpa using hst
  · rw [(applyMetricType_fields _ _).2.2.2.2.1]
    simpa using hmsg

/-! ## Claim C3 -/

/-- C3: when the decoded body carries a non-empty code the JSON parser
returns it unchanged — the 429 + "rate limit" inference fills the code
only when the decoded code is empty. -/
theorem c3_upstream_code_preserved :
    ∀ (raw : List Char) (hh : HeadJson) (i : Nat) (sh : Shell),
      jsonHead (trimSpace raw) = some hh →
      firstIdxOf '{' (trimSpace raw) = some i →
      decodeShell (mkJsonPart ((trimSpace raw).drop i)) = some sh →
      ¬ shellChosenCode sh = [] →
      (ParseOpenAIJsonError raw).map (fun e => e.Code) = some (shellChosenCode sh) := by
  intro raw hh i sh h1 h2 h3 h4
  unfold ParseOpenAIJsonError
  simp only [h1, h2, processBody_eq_decode h3, Option.map_some']
  unfold finishShell
  have hc1 : (addRateInfoJson (chooseShell (headerToError hh.mth hh.url hh.st hh.rsn) sh)).Code =
      shellChosenCode sh := by
    rw [(addRateInfoJson_hdr _).2.2.2.2.2, (chooseShell_code_msg _ _).1]
  rw [applyInferredCode_eq_of_ne (by rw [hc1]; exact h4), hc1]

def c3win : List Char :=
  ("POST \"https://z\": 429 Too Many Requests \x7b\"message\":\"rate limit\",\"code\":\"custom\"\x7d").toList

def c3wsh : Shell :=
  { Err := none, Message := ("rate limit".toList), Typ := [], Param := none,
    Code := ("custom".toList) }

set_option maxRecDepth 100000 in
/-- Witness for C3: a supplied code `custom` comes through unchanged. -/
theorem c3_witness :
    (ParseOpenAIJsonError c3win).map (fun e => e.Code) = some ("custom".toList) := by
  have h := c3_upstream_code_preserved c3win
    ⟨("POST".toList), ("https://z".toList), ("429".toList), ("Too Many Requests".toList)⟩
    40 c3wsh (by decide) (by decide) (by decide) (by decide)
  rw [h]
  decide

/-! ## Claim C2 -/

def c2cexJson : List Char :=
  ("POST \"https://x\": 429 Too Many Requests \x7b\"message\":\"rate limit\",\"code\":\"custom\"\x7d").toList

def c2cexPlain : List Char :=
  ("POST https://x: 429 Too Many Requests - rate limit hit").toList

set_option maxRecDepth 100000 in
/-- C2 fails as stated: with status 429 and a message containing "rate
limit", the JSON parser keeps the supplied upstream code `custom` instead
of `rate_limit_exceeded`, and the plain parser leaves the code empty when
the full rate-limit grammar did not match. -/
theorem c2_counterexample :
    (ParseOpenAIJsonError c2cexJson).map
        (fun e => (e.Status, goContains (lowerStr e.Message) ("rate limit".toList), e.Code)) =
      some (429, true, ("custom".toList)) ∧
    (ParseOpenAIPlainError c2cexPlain).map
        (fun e => (e.Status, goContains (lowerStr e.Message) ("rate limit".toList), e.Code)) =
      some (429, true, ([] : List Char)) ∧
    ¬ (("custom".toList) = ("rate_limit_exceeded".toList)) := by
  refine ⟨by decide, by decide, by decide⟩

/-- C2 (amended): on 429 with a message containing "rate limit", the
returned code is `rate_limit_exceeded` provided the upstream-decoded code
was empty (JSON dialect), resp. provided the rate-limit grammar matched
the message (plain dialect, whose upstream never supplies a code). -/
theorem c2_inferred_code :
    (∀ (raw : List Char) (hh : HeadJson) (i : Nat) (sh : Shell),
      jsonHead (trimSpace raw) = some hh →
      firstIdxOf '{' (trimSpace raw) = some i →
      decodeShell (mkJsonPart ((trimSpace raw).drop i)) = some sh →
      shellChosenCode sh = [] →
      natOfDigits hh.st = 429 →
      goContains (lowerStr (shellChosenMessage sh)) ("rate limit".toList) = true →
      (ParseOpenAIJsonError raw).map (fun e => e.Code) =
        some ("rate_limit_exceeded".toList)) ∧
    (∀ (raw : List Char) (e : OpenAIError),
      ParseOpenAIPlainError raw = some e → e.Status = 429 →
      (rateFind e.Message).isSome = true →
      e.Code = ("rate_limit_exceeded".toList)) := by
  constructor
  · intro raw hh i sh h1 h2 h3 h4 h5 h6
    unfold ParseOpenAIJsonError
    simp only [h1, h2, processBody_eq_decode h3, Option.map_some']
    unfold finishShell
    have hcode : (addRateInfoJson (chooseShell (headerToError hh.mth hh.url hh.st hh.rsn) sh)).Code =
        shellChosenCode sh := by
      rw [(addRateInfoJson_hdr _).2.2.2.2.2, (chooseShell_code_msg _ _).1]
    have hmsg : (addRateInfoJson (chooseShell (headerToError hh.mth hh.url hh.st hh.rsn) sh)).Message =
        shellChosenMessage sh := by
      rw [(addRateInfoJson_hdr _).2.2.2.2.1, (chooseShell_code_msg _ _).2]
    have hst : (addRateInfoJson (chooseShell (headerToError hh.mth hh.url hh.st hh.rsn) sh)).Status =
        429 := by
      rw [(addRateInfoJson_hdr _).2.2.1, (chooseShell_hdr _ _).2.2.1]
      simpa [headerToError] using h5
    rw [applyInferredCode_eq_of_fire (by rw [hcode]; exact h4) hst (by rw [hmsg]; exact h6)]
  · intro raw e hpe hst hrf
    obtain ⟨hh, _, hcase⟩ := parsePlain_cases hpe
    rcases hcase with ⟨hr, rfl⟩ | ⟨rm, hr, rfl⟩
    · rw [hr] at hrf
      simp at hrf
    · rw [(plainRmResult_fields hh rm).2.2.1] at hst
      exact plainRmResult_code hh rm hst (rateFind_contains hr)

def c2win : List Char :=
  ("POST \"https://w\": 429 Too Many Requests \x7b\"message\":\"rate limit\"\x7d").toList

def c2wsh : Shell :=
  { Err := none, Message := ("rate limit".toList), Typ := [], Param := none, Code := [] }

set_option maxRecDepth 100000 in
/-- Witness for the amended C2: an empty upstream code is replaced by
`rate_limit_exceeded` on a 429 rate-limit message. -/
theorem c2_witness :
    (ParseOpenAIJsonError c2win).map (fun e => e.Code) =
      some ("rate_limit_exceeded".toList) :=
  c2_inferred_code.1 c2win
    ⟨("POST".toList), ("https://w".toList), ("429".toList), ("Too Many Requests".toList)⟩
    40 c2wsh (by decide) (by decide) (by decide) (by decide) (by decide) (by decide)

/-! ## Claim C4: the retry driver -/

theorem retryDelayNs_some_iff {raw : List Char} {d : Int} :
    retryDelayNs raw = some d ↔
      ∃ e ri, parseEither raw = some e ∧ e.Status = 429 ∧
        e.Code = ("rate_limit_exceeded".toList) ∧ e.RateInfo = some ri ∧
        d = ri.RetryAfter + 100000000 := by
  unfold retryDelayNs retryDecision
  cases hp : parseEither raw with
  | none => simp
  | some e =>
    simp only [Option.some_bind]
    cases hri : e.RateInfo with
    | none =>
      constructor
      · intro h
        simp at h
      · rintro ⟨e', ri', he', -, -, h3, -⟩
        obtain rfl : e = e' := Option.some.inj he'
        rw [hri] at h3
        exact Option.noConfusion h3
    | some ri =>
      split_ifs with hcond
      · constructor
        · intro h
          exact ⟨e, ri, rfl, hcond.1, hcond.2, hri, (Option.some.inj h).symm⟩
        · rintro ⟨e', ri', he', -, -, h3, h4⟩
          obtain rfl : e = e' := Option.some.inj he'
          rw [hri] at h3
          obtain rfl : ri = ri' := Option.some.inj h3
          rw [h4]
      · constructor
        · intro h
          simp at h
        · rintro ⟨e', ri', he', h1, h2, -, -⟩
          obtain rfl : e = e' := Option.some.inj he'
          exact absurd ⟨h1, h2⟩ hcond

/-- C4: the driver makes at most 3 attempts; every retry follows a failure
whose parsed record has status 429, code `rate_limit_exceeded` and a
present `RateInfo`, with a sleep of exactly `RetryAfter + 100 ms`
(10⁸ ns) recorded before the retry; a failure whose parse does not satisfy
that condition (including both parsers rejecting) ends the run at once,
surfacing that raw error. -/
theorem c4_retry_policy :
    ∀ att : Nat → Option (List Char),
      (generateJsonContent att).attempts ≤ 3 ∧
      (∀ k, k + 1 < (generateJsonContent att).attempts →
        ∃ raw e ri, att k = some raw ∧ parseEither raw = some e ∧ e.Status = 429 ∧
          e.Code = ("rate_limit_exceeded".toList) ∧ e.RateInfo = some ri ∧
          (generateJsonContent att).sleeps.getD k 0 = ri.RetryAfter + 100000000) ∧
      (∀ k raw, k < (generateJsonContent att).attempts → att k = some raw →
        retryDelayNs raw = none →
        (generateJsonContent att).attempts = k + 1 ∧
        (generateJsonContent att).success = false ∧
        (generateJsonContent att).surfaced = some raw) := by
  intro att
  cases h0 : att 0 with
  | none =>
    have hg : generateJsonContent att = ⟨true, none, [], 1⟩ := by
      simp [generateJsonContent, genLoop, h0]
    rw [hg]
    refine ⟨(by omega : (1 : Nat) ≤ 3), ?_, ?_⟩
    · intro k hk
      have hk' : k + 1 < 1 := hk
      omega
    · intro k raw hk hraw hnone
      have hk' : k < 1 := hk
      interval_cases k
      rw [h0] at hraw
      exact Option.noConfusion hraw
  | some raw0 =>
    cases hd0 : retryDelayNs raw0 with
    | none =>
      have hg : generateJsonContent att = ⟨false, some raw0, [], 1⟩ := by
        simp [generateJsonContent, genLoop, h0, hd0]
      rw [hg]
      refine ⟨(by omega : (1 : Nat) ≤ 3), ?_, ?_⟩
      · intro k hk
        have hk' : k + 1 < 1 := hk
        omega
      · intro k raw hk hraw hnone
        have hk' : k < 1 := hk
        interval_cases k
        rw [h0] at hraw
        obtain rfl : raw0 = raw := Option.some.inj hraw
        exact ⟨rfl, rfl, rfl⟩
    | some d0 =>
      obtain ⟨e0, ri0, hp0, hs0, hc0, hr0, hd0v⟩ := retryDelayNs_some_iff.mp hd0
      cases h1 : att 1 with
      | none =>
        have hg : generateJsonContent att = ⟨true, none, [d0], 2⟩ := by
          simp [generateJsonContent, genLoop, h0, hd0, h1]
        rw [hg]
        refine ⟨(by omega : (2 : Nat) ≤ 3), ?_, ?_⟩
        · intro k hk
          have hk0 : k + 1 < 2 := hk
          have hk' : k < 1 := by omega
          interval_cases k
          exact ⟨raw0, e0, ri0, h0, hp0, hs0, hc0, hr0, by simpa using hd0v⟩
        · intro k raw hk hraw hnone
          have hk' : k < 2 := hk
          interval_cases k
          · rw [h0] at hraw
            obtain rfl : raw0 = raw := Option.some.inj hraw
            rw [hnone] at hd0
            exact Option.noConfusion hd0
          · rw [h1] at hraw
            exact Option.noConfusion hraw
      | some raw1 =>
        cases hd1 : retryDelayNs raw1 with
        | none =>
          have hg : generateJsonContent att = ⟨false, some raw1, [d0], 2⟩ := by
            simp [generateJsonContent, genLoop, h0, hd0, h1, hd1]
          rw [hg]
          refine ⟨(by omega : (2 : Nat) ≤ 3), ?_, ?_⟩
          · intro k hk
            have hk0 : k + 1 < 2 := hk
            have hk' : k < 1 := by omega
            interval_cases k
            exact ⟨raw0, e0, ri0, h0, hp0, hs0, hc0, hr0, by simpa using hd0v⟩
          · intro k raw hk hraw hnone
            have hk' : k < 2 := hk
            interval_cases k
            · rw [h0] at hraw
              obtain rfl : raw0 = raw := Option.some.inj hraw
              rw [hnone] at hd0
              exact Option.noConfusion hd0
            · rw [h1] at hraw
              obtain rfl : raw1 = raw := Option.some.inj hraw
              exact ⟨rfl, rfl, rfl⟩
        | some d1 =>
          obtain ⟨e1, ri1, hp1, hs1, hc1, hr1, hd1v⟩ := retryDelayNs_some_iff.mp hd1
          cases h2 : att 2 with
          | none =>
            have hg : generateJsonContent att = ⟨true, none, [d0, d1], 3⟩ := by
              simp [generateJsonContent, genLoop, h0, hd0, h1, hd1, h2]
            rw [hg]
            refine ⟨(by omega : (3 : Nat) ≤ 3), ?_, ?_⟩
            · intro k hk
              have hk0 : k + 1 < 3 := hk
              have hk' : k < 2 := by omega
              interval_cases k
              · exact ⟨raw0, e0, ri0, h0, hp0, hs0, hc0, hr0, by simpa using hd0v⟩
              · exact ⟨raw1, e1, ri1, h1, hp1, hs1, hc1, hr1, by simpa using hd1v⟩
            · intro k raw hk hraw hnone
              have hk' : k < 3 := hk
              interval_cases k
              · rw [h0] at hraw
                obtain rfl : raw0 = raw := Option.some.inj hraw
                rw [hnone] at hd0
                exact Option.noConfusion hd0
              · rw [h1] at hraw
                obtain rfl : raw1 = raw := Option.some.inj hraw
                rw [hnone] at hd1
                exact Option.noConfusion hd1
              · rw [h2] at hraw
                exact Option.noConfusion hraw
          | some raw2 =>
            cases hd2 : retryDelayNs raw2 with
            | none =>
              have hg : generateJsonContent att = ⟨false, some raw2, [d0, d1], 3⟩ := by
                simp [generateJsonContent, genLoop, h0, hd0, h1, hd1, h2, hd2]
              rw [hg]
              refine ⟨(by omega : (3 : Nat) ≤ 3), ?_, ?_⟩
              · intro k hk
                have hk0 : k + 1 < 3 := hk
                have hk' : k < 2 := by omega
                interval_cases k
                · exact ⟨raw0, e0, ri0, h0, hp0, hs0, hc0, hr0, by simpa using hd0v⟩
                · exact ⟨raw1, e1, ri1, h1, hp1, hs1, hc1, hr1, by simpa using hd1v⟩
              · intro k raw hk hraw hnone
                have hk' : k < 3 := hk
                interval_cases k
                · rw [h0] at hraw
                  obtain rfl : raw0 = raw := Option.some.inj hraw
                  rw [hnone] at hd0
                  exact Option.noConfusion hd0
                · rw [h1] at hraw
                  obtain rfl : raw1 = raw := Option.some.inj hraw
                  rw [hnone] at hd1
                  exact Option.noConfusion hd1
                · rw [h2] at hraw
                  obtain rfl : raw2 = raw := Option.some.inj hraw
                  exact ⟨rfl, rfl, rfl⟩
            | some d2 =>
              have hg : generateJsonContent att = ⟨false, some raw2, [d0, d1, d2], 3⟩ := by
                simp [generateJsonContent, genLoop, h0, hd0, h1, hd1, h2, hd2]
              rw [hg]
              refine ⟨(by omega : (3 : Nat) ≤ 3), ?_, ?_⟩
              · intro k hk
                have hk0 : k + 1 < 3 := hk
                have hk' : k < 2 := by omega
                interval_cases k
                · exact ⟨raw0, e0, ri0, h0, hp0, hs0, hc0, hr0, by simpa using hd0v⟩
                · exact ⟨raw1, e1, ri1, h1, hp1, hs1, hc1, hr1, by simpa using hd1v⟩
              · intro k raw hk hraw hnone
                have hk' : k < 3 := hk
                interval_cases k
                · rw [h0] at hraw
                  obtain rfl : raw0 = raw := Option.some.inj hraw
                  rw [hnone] at hd0
                  exact Option.noConfusion hd0
                · rw [h1] at hraw
                  obtain rfl : raw1 = raw := Option.some.inj hraw
                  rw [hnone] at hd1
                  exact Option.noConfusion hd1
                · rw [h2] at hraw
                  obtain rfl : raw2 = raw := Option.some.inj hraw
                  rw [hnone] at hd2
                  exact Option.noConfusion hd2

/-! ## Claim C8: truncation tolerance -/

/-- C8: after a JSON header match, when the body decode fails the parser
retries on the prefix ending at the last `}`; on a second failure, or with
no `}` past the first byte, the record carries the trimmed body substring
as its message and keeps type, param, code, and rate info empty; when the
retry succeeds the record is populated from the truncated prefix through
the normal population path. -/
theorem c8_truncation_tolerance :
    ∀ (raw : List Char) (hh : HeadJson) (i : Nat),
      jsonHead (trimSpace raw) = some hh →
      firstIdxOf '{' (trimSpace raw) = some i →
      decodeShell (mkJsonPart ((trimSpace raw).drop i)) = none →
      ((lastIdxOf '}' (mkJsonPart ((trimSpace raw).drop i)) = none →
        ParseOpenAIJsonError raw =
          some { headerToError hh.mth hh.url hh.st hh.rsn with
                 Message := trimSpace (mkJsonPart ((trimSpace raw).drop i)) }) ∧
       (∀ l, lastIdxOf '}' (mkJsonPart ((trimSpace raw).drop i)) = some l → ¬ 0 < l →
        ParseOpenAIJsonError raw =
          some { headerToError hh.mth hh.url hh.st hh.rsn with
                 Message := trimSpace (mkJsonPart ((trimSpace raw).drop i)) }) ∧
       (∀ l, lastIdxOf '}' (mkJsonPart ((trimSpace raw).drop i)) = some l → 0 < l →
        decodeShell ((mkJsonPart ((trimSpace raw).drop i)).take (l + 1)) = none →
        ParseOpenAIJsonError raw =
          some { headerToError hh.mth hh.url hh.st hh.rsn with
                 Message := trimSpace (mkJsonPart ((trimSpace raw).drop i)) }) ∧
       (∀ l sh, lastIdxOf '}' (mkJsonPart ((trimSpace raw).drop i)) = some l → 0 < l →
        decodeShell ((mkJsonPart ((trimSpace raw).drop i)).take (l + 1)) = some sh →
        ParseOpenAIJsonError raw =
          some (finishShell (headerToError hh.mth hh.url hh.st hh.rsn) sh))) := by
  intro raw hh i h1 h2 h3
  refine ⟨?_, ?_, ?_, ?_⟩
  · intro hl
    unfold ParseOpenAIJsonError
    simp only [h1, h2, processBody_eq_fb_nobrace h3 hl]
  · intro l hl hpos
    unfold ParseOpenAIJsonError
    simp only [h1, h2, processBody_eq_fb_zero h3 hl hpos]
  · intro l hl hpos h4
    unfold ParseOpenAIJsonError
    simp only [h1, h2, processBody_eq_fb_retryfail h3 hl hpos h4]
  · intro l sh hl hpos h4
    unfold ParseOpenAIJsonError
    simp only [h1, h2, processBody_eq_retry h3 hl hpos h4]

def c8win : List Char :=
  ("POST \"https://q\": 400 Bad Request \x7b\"message\":\"hi\",\"code\":\"x\"\x7d junk").toList

def c8wsh : Shell :=
  { Err := none, Message := ("hi".toList), Typ := [], Param := none, Code := ("x".toList) }

set_option maxRecDepth 100000 in
/-- Witness for C8: the retry branch on a body with trailing garbage
populates message and code from the prefix ending at the last `}`. -/
theorem c8_witness :
    (ParseOpenAIJsonError c8win).map (fun e => (e.Message, e.Code)) =
      some (("hi".toList), ("x".toList)) := by
  have h := (c8_truncation_tolerance c8win
    ⟨("POST".toList), ("https://q".toList), ("400".toList), ("Bad Request".toList)⟩
    34 (by decide) (by decide) (by decide)).2.2.2 26 c8wsh (by decide) (by decide) (by decide)
  rw [h]
  decide

/-! ## Inversion of the JSON header matcher -/

theorem findSome_ex {α β : Type} {f : α → Option β} {l : List α} {b : β}
    (h : l.findSome? f = some b) : ∃ a, a ∈ l ∧ f a = some b := by
  induction l with
  | nil => simp [List.findSome?] at h
  | cons x xs ih =>
    rw [List.findSome?] at h
    cases hf : f x with
    | some y =>
      rw [hf] at h
      exact ⟨x, List.mem_cons_self x xs, by rw [hf]; exact h⟩
    | none =>
      rw [hf] at h
      obtain ⟨a, ha, hfa⟩ := ih h
      exact ⟨a, List.mem_cons_of_mem x ha, hfa⟩

theorem maximalRun_le_length (cls : Char → Bool) (s : List Char) :
    maximalRun cls s ≤ s.length := by
  induction s with
  | nil => simp [maximalRun]
  | cons a rest ih =>
    unfold maximalRun
    by_cases ha : cls a
    · rw [if_pos ha]
      simpa using ih
    · rw [if_neg ha]
      simp

theorem splitsDesc_mem {s : List Char} {n : Nat} {t r : List Char}
    (h : (t, r) ∈ splitsDesc s n) :
    ∃ k, 1 ≤ k ∧ k ≤ n ∧ t = s.take k ∧ r = s.drop k := by
  induction n with
  | zero => simp [splitsDesc] at h
  | succ m ih =>
    simp only [splitsDesc, List.mem_cons] at h
    rcases h with h | h
    · injection h with h1 h2
      exact ⟨m + 1, by omega, Nat.le_refl _, h1, h2⟩
    · obtain ⟨k, h1, h2, h3, h4⟩ := ih h
      exact ⟨k, h1, by omega, h3, h4⟩

theorem take_all_of_le_maximalRun {cls : Char → Bool} {s : List Char} {k : Nat}
    (h : k ≤ maximalRun cls s) : ∀ c ∈ s.take k, cls c = true := by
  induction s generalizing k with
  | nil => simp
  | cons a rest ih =>
    cases k with
    | zero => simp
    | succ m =>
      unfold maximalRun at h
      by_cases ha : cls a
      · rw [if_pos ha] at h
        intro c hc
        rw [List.take_succ_cons] at hc
        rcases List.mem_cons.mp hc with rfl | hc
        · exact ha
        · exact ih (by omega) c hc
      · rw [if_neg ha] at h
        omega

theorem splitsMany1_mem {cls : Char → Bool} {s t r : List Char}
    (h : (t, r) ∈ splitsMany1 cls s) :
    s = t ++ r ∧ t ≠ [] ∧ ∀ c ∈ t, cls c = true := by
  obtain ⟨k, h1, h2, rfl, rfl⟩ := splitsDesc_mem h
  refine ⟨(List.take_append_drop k s).symm, ?_, take_all_of_le_maximalRun h2⟩
  have hlen : k ≤ s.length := le_trans h2 (maximalRun_le_length cls s)
  intro hempty
  have hz : (s.take k).length = 0 := by rw [hempty]; rfl
  rw [List.length_take] at hz
  omega

theorem litP_ex {pat s r : List Char} (h : litP pat s = some r) : s = pat ++ r := by
  unfold litP at h
  split_ifs at h with hp
  obtain ⟨t, rfl⟩ := hasPref_ex hp
  have h2 := Option.some.inj h
  rw [List.drop_left] at h2
  rw [h2]

theorem takeExact_ex {n : Nat} {cls : Char → Bool} {s t r : List Char}
    (h : takeExact n cls s = some (t, r)) :
    s = t ++ r ∧ t.length = n ∧ ∀ c ∈ t, cls c = true := by
  unfold takeExact at h
  split_ifs at h with hc
  injection h with h1
  injection h1 with h2 h3
  subst h2
  subst h3
  exact ⟨(List.take_append_drop n s).symm, hc.1, List.all_eq_true.mp hc.2⟩

/-- Inversion of a successful JSON header match: the verb is one of the
five, the input decomposes as verb, whitespace, quoted URL, remainder, and
the status and reason captures satisfy their classes. -/
theorem jsonHead_ex {s : List Char} {h : HeadJson} (hj : jsonHead s = some h) :
    h.mth ∈ methodsList ∧
    (∃ w1 rest, s = h.mth ++ (w1 ++ '"' :: (h.url ++ '"' :: rest)) ∧
      h.url ≠ [] ∧ (∀ c ∈ h.url, (c == '"') = false)) ∧
    h.st.length = 3 ∧ (∀ c ∈ h.st, isDigitC c = true) ∧
    h.rsn ≠ [] ∧ (∀ c ∈ h.rsn, isReasonChar c = true) := by
  unfold jsonHead at hj
  obtain ⟨mth, hmem, h1⟩ := findSome_ex hj
  simp only [Option.bind_eq_some] at h1
  obtain ⟨r1, hlit1, h2⟩ := h1
  obtain ⟨⟨w1, r2⟩, hw1mem, h3⟩ := findSome_ex h2
  simp only [Option.bind_eq_some] at h3
  obtain ⟨r3, hlit3, h4⟩ := h3
  obtain ⟨⟨url, r4⟩, hurlmem, h5⟩ := findSome_ex h4
  simp only [Option.bind_eq_some] at h5
  obtain ⟨r5, hlit5, h6⟩ := h5
  obtain ⟨⟨w6, r6⟩, hw6mem, h7⟩ := findSome_ex h6
  simp only [Option.bind_eq_some] at h7
  obtain ⟨r7, hlit7, h8⟩ := h7
  obtain ⟨⟨w8, r8⟩, hw8mem, h9⟩ := findSome_ex h8
  simp only [Option.bind_eq_some] at h9
  obtain ⟨⟨st, r9⟩, htake, h10⟩ := h9
  obtain ⟨⟨w10, r10⟩, hw10mem, h11⟩ := findSome_ex h10
  obtain ⟨⟨rsn, r11⟩, hrsnmem, h12⟩ := findSome_ex h11
  obtain ⟨⟨w12, r12⟩, hw12mem, h13⟩ := findSome_ex h12
  obtain rfl : h = ⟨mth, url, st, rsn⟩ := (Option.some.inj h13).symm
  obtain ⟨hr3eq, hurlne, hurlcls⟩ := splitsMany1_mem hurlmem
  obtain ⟨hr8eq, hst3, hstd⟩ := takeExact_ex htake
  obtain ⟨hr10eq, hrsnne, hrsncls⟩ := splitsMany1_mem hrsnmem
  obtain ⟨hr1eq, _, _⟩ := splitsMany1_mem hw1mem
  refine ⟨hmem, ⟨w1, r5, ?_, hurlne, ?_⟩, hst3, hstd, hrsnne, hrsncls⟩
  · rw [litP_ex hlit1, hr1eq, litP_ex hlit3, hr3eq, litP_ex hlit5]
    simp
  · intro c hc
    have hx := hurlcls c hc
    simpa using hx

theorem firstIdxOf_isSome {c : Char} {s : List Char} (h : c ∈ s) :
    (firstIdxOf c s).isSome = true := by
  induction s with
  | nil => simp at h
  | cons a rest ih =>
    unfold firstIdxOf
    by_cases ha : a == c
    · simp [ha]
    · rcases List.mem_cons.mp h with rfl | hm
      · simp at ha
      · rw [if_neg ha]
        simpa using ih hm

/-! ## Claim C10 -/

def c10in : List Char :=
  ("POST \"https://x/\x7ba\x7d\": 429 Too Many Requests x").toList

def c10out : OpenAIError :=
  { Method := ("POST".toList), URL := ("https://x/\x7ba\x7d".toList), Status := 429,
    Reason := ("Too Many Requests".toList),
    Message := ("\x7ba\x7d\": 429 Too Many Requests x".toList),
    Typ := [], Param := none, Code := [], RateInfo := none }

set_option maxRecDepth 100000 in
/-- C10: the JSON body is located at the first `{` anywhere in the raw
string — even inside the quoted URL, so for every accepted input whose URL
contains `{` the body branch is taken; concretely, an input with `{a}` in
its URL and nothing after the header yields a non-empty Message holding
the URL tail and everything after it. -/
theorem c10_brace_in_url :
    (∀ (raw : List Char) (hh : HeadJson), jsonHead (trimSpace raw) = some hh →
      '{' ∈ hh.url → (firstIdxOf '{' (trimSpace raw)).isSome = true) ∧
    ParseOpenAIJsonError c10in = some c10out ∧ c10out.Message ≠ [] ∧ '{' ∈ c10out.URL := by
  refine ⟨?_, by decide, by decide, by decide⟩
  intro raw hh hj hbr
  obtain ⟨_, ⟨w1, rest, hseq, _, _⟩, _⟩ := jsonHead_ex hj
  apply firstIdxOf_isSome
  rw [hseq]
  simp only [List.mem_append, List.mem_cons]
  exact Or.inr (Or.inr (Or.inr (Or.inl hbr)))

set_option maxRecDepth 100000 in
/-- Witness for C10's universal part at the concrete input. -/
theorem c10_witness : (firstIdxOf '{' (trimSpace c10in)).isSome = true :=
  c10_brace_in_url.1 c10in
    ⟨("POST".toList), ("https://x/\x7ba\x7d".toList), ("429".toList),
     ("Too Many Requests".toList)⟩
    (by decide) (by decide)

def c4att : Nat → Option (List Char) := fun i =>
  if i = 0 then some ("hello world".toList) else none

/-- Witness for C4: a failure both parsers reject ends the run at the
first attempt, surfacing the raw error. -/
theorem c4_witness :
    (generateJsonContent c4att).attempts = 1 ∧
    (generateJsonContent c4att).success = false ∧
    (generateJsonContent c4att).surfaced = some ("hello world".toList) :=
  (c4_retry_policy c4att).2.2 0 ("hello world".toList) (by decide) (by decide) (by decide)

/-! ## Helper lemmas for the round-trip claim -/

theorem maximalRun_cons_pos {cls : Char → Bool} {y : Char} {ys : List Char}
    (h : cls y = true) : maximalRun cls (y :: ys) = maximalRun cls ys + 1 := by
  simp only [maximalRun]
  rw [if_pos h]

theorem maximalRun_cons_neg {cls : Char → Bool} {y : Char} {ys : List Char}
    (h : cls y = false) : maximalRun cls (y :: ys) = 0 := by
  simp only [maximalRun]
  rw [if_neg (by simp [h])]

theorem maximalRun_append_all {cls : Char → Bool} {xs : List Char} (rest : List Char)
    (h : ∀ c ∈ xs, cls c = true) :
    maximalRun cls (xs ++ rest) = xs.length + maximalRun cls rest := by
  induction xs with
  | nil => simp
  | cons a t ih =>
    rw [List.cons_append, maximalRun_cons_pos (h a (List.mem_cons_self a t))]
    rw [ih (fun c hc => h c (List.mem_cons_of_mem a hc))]
    simp [List.length_cons]
    omega

theorem maximalRun_of_head_neg {cls : Char → Bool} {s : List Char}
    (h : ∀ c, s.head? = some c → cls c = false) : maximalRun cls s = 0 := by
  cases s with
  | nil => rfl
  | cons a t => exact maximalRun_cons_neg (h a rfl)

theorem litP_self (pat rest : List Char) : litP pat (pat ++ rest) = some rest := by
  unfold litP
  rw [if_pos (hasPref_self_append pat rest), List.drop_left]

/-! ## Character-class disjointness -/

theorem goRegexSpace_toNat {c : Char} (h : goRegexSpace c = true) :
    c.toNat = 9 ∨ c.toNat = 10 ∨ c.toNat = 12 ∨ c.toNat = 13 ∨ c.toNat = 32 := by
  unfold goRegexSpace at h
  simp only [Bool.or_eq_true, beq_iff_eq] at h
  rcases h with (((rfl | rfl) | rfl) | rfl) | rfl <;> simp

theorem isDigit_not_space {c : Char} (h : isDigitC c = true) : goRegexSpace c = false := by
  unfold isDigitC at h
  simp only [Bool.and_eq_true, decide_eq_true_eq] at h
  by_contra hs
  rw [Bool.not_eq_false] at hs
  rcases goRegexSpace_toNat hs with h9 | h9 | h9 | h9 | h9 <;> omega

theorem regexSpace_unicodeSpace {c : Char} (h : goRegexSpace c = true) :
    goUnicodeSpace c = true := by
  unfold goRegexSpace at h
  unfold goUnicodeSpace
  simp only [Bool.or_eq_true, beq_iff_eq] at h ⊢
  rcases h with (((rfl | rfl) | rfl) | rfl) | rfl <;> simp

theorem not_unicode_not_regex {c : Char} (h : goUnicodeSpace c = false) :
    goRegexSpace c = false := by
  by_contra hr
  rw [Bool.not_eq_false] at hr
  rw [regexSpace_unicodeSpace hr] at h
  exact Bool.noConfusion h

/-! ## Trimming lemmas -/

theorem head_dropWhile_false {p : Char → Bool} {l : List Char} {c : Char}
    (h : (l.dropWhile p).head? = some c) : p c = false := by
  induction l with
  | nil => simp at h
  | cons a t ih =>
    rw [List.dropWhile_cons] at h
    by_cases hp : p a
    · rw [if_pos hp] at h
      exact ih h
    · rw [if_neg hp] at h
      obtain rfl : a = c := by simpa using h
      simpa using hp

theorem head?_append_some {l t : List Char} {c : Char} (h : l.head? = some c) :
    (l ++ t).head? = some c := by
  cases l with
  | nil => simp at h
  | cons a l2 => simpa using h

theorem trimSpace_getLast_false {s : List Char} {c : Char}
    (h : (trimSpace s).getLast? = some c) : goUnicodeSpace c = false := by
  unfold trimSpace at h
  rw [List.getLast?_eq_head?_reverse, List.reverse_reverse] at h
  exact head_dropWhile_false h

theorem trimSpace_head_false {s : List Char} {c : Char}
    (h : (trimSpace s).head? = some c) : goUnicodeSpace c = false := by
  unfold trimSpace at h
  obtain ⟨t, ht⟩ :=
    List.dropWhile_suffix (l := (s.dropWhile goUnicodeSpace).reverse) goUnicodeSpace
  have hu : ((s.dropWhile goUnicodeSpace).reverse.dropWhile goUnicodeSpace).reverse ++ t.reverse
      = s.dropWhile goUnicodeSpace := by
    have h2 := congrArg List.reverse ht
    rw [List.reverse_append, List.reverse_reverse] at h2
    exact h2
  apply head_dropWhile_false (p := goUnicodeSpace) (l := s)
  rw [← hu]
  exact head?_append_some h

theorem dropWhile_eq_self_of_head {p : Char → Bool} {s : List Char}
    (h : ∀ c, s.head? = some c → p c = false) : s.dropWhile p = s := by
  cases s with
  | nil => rfl
  | cons a t =>
    rw [List.dropWhile_cons, h a rfl]
    simp

theorem trimSpace_eq_self {s : List Char}
    (h1 : ∀ c, s.head? = some c → goUnicodeSpace c = false)
    (h2 : ∀ c, s.getLast? = some c → goUnicodeSpace c = false) : trimSpace s = s := by
  unfold trimSpace
  rw [dropWhile_eq_self_of_head h1]
  rw [dropWhile_eq_self_of_head
    (fun c hc => h2 c (by rwa [← List.getLast?_eq_head?_reverse] at hc))]
  exact List.reverse_reverse s

theorem trimSpace_idem (s : List Char) : trimSpace (trimSpace s) = trimSpace s :=
  trimSpace_eq_self (fun _ hc => trimSpace_head_false hc)
    (fun _ hc => trimSpace_getLast_false hc)

theorem mem_of_mem_trimSpace {c : Char} {s : List Char} (h : c ∈ trimSpace s) : c ∈ s := by
  unfold trimSpace at h
  rw [List.mem_reverse] at h
  have h2 := (List.dropWhile_sublist _).subset h
  rw [List.mem_reverse] at h2
  exact (List.dropWhile_sublist _).subset h2

/-! ## Decimal rendering of the status -/

theorem digitChar_isDigit {d : Nat} (h : d < 10) : isDigitC (Nat.digitChar d) = true := by
  interval_cases d <;> decide

theorem digitChar_toNat {d : Nat} (h : d < 10) : (Nat.digitChar d).toNat = 48 + d := by
  interval_cases d <;> decide

theorem toDigitsCore_step (fuel n : Nat) (ds : List Char) :
    Nat.toDigitsCore 10 (fuel + 1) n ds =
      if n / 10 = 0 then Nat.digitChar (n % 10) :: ds
      else Nat.toDigitsCore 10 fuel (n / 10) (Nat.digitChar (n % 10) :: ds) := by
  rfl

theorem toDigits_three {n : Nat} (h1 : 100 ≤ n) (h2 : n ≤ 999) :
    Nat.toDigits 10 n =
      [Nat.digitChar (n / 100), Nat.digitChar (n / 10 % 10), Nat.digitChar (n % 10)] := by
  unfold Nat.toDigits
  rw [toDigitsCore_step, if_neg (by omega)]
  obtain ⟨b, rfl⟩ : ∃ b, n = b + 1 := ⟨n - 1, by omega⟩
  rw [toDigitsCore_step, if_neg (by omega)]
  obtain ⟨c, rfl⟩ : ∃ c, b = c + 1 := ⟨b - 1, by omega⟩
  rw [toDigitsCore_step, if_pos (by omega)]
  have e1 : (c + 1 + 1) / 10 / 10 % 10 = (c + 1 + 1) / 100 := by omega
  have e2 : (c + 1 + 1) / 10 % 10 = (c + 1 + 1) / 10 % 10 := rfl
  rw [e1]

theorem natOfDigits_three {n : Nat} (h1 : 100 ≤ n) (h2 : n ≤ 999) :
    natOfDigits (Nat.toDigits 10 n) = n := by
  rw [toDigits_three h1 h2]
  unfold natOfDigits
  simp only [List.foldl]
  rw [digitChar_toNat (by omega), digitChar_toNat (by omega), digitChar_toNat (by omega)]
  omega

theorem toDigits_three_len {n : Nat} (h1 : 100 ≤ n) (h2 : n ≤ 999) :
    (Nat.toDigits 10 n).length = 3 := by
  rw [toDigits_three h1 h2]
  rfl

theorem toDigits_three_digits {n : Nat} (h1 : 100 ≤ n) (h2 : n ≤ 999) :
    ∀ c ∈ Nat.toDigits 10 n, isDigitC c = true := by
  rw [toDigits_three h1 h2]
  intro c hc
  rcases List.mem_cons.mp hc with rfl | hc
  · exact digitChar_isDigit (by omega)
  rcases List.mem_cons.mp hc with rfl | hc
  · exact digitChar_isDigit (by omega)
  rcases List.mem_cons.mp hc with rfl | hc
  · exact digitChar_isDigit (by omega)
  · simp at hc

theorem natOfDigits_le_999 {ds : List Char} (h3 : ds.length = 3)
    (hd : ∀ c ∈ ds, isDigitC c = true) : natOfDigits ds ≤ 999 := by
  obtain ⟨a, b, c, rfl⟩ := List.length_eq_three.mp h3
  have ha := hd a (by simp)
  have hb := hd b (by simp)
  have hc := hd c (by simp)
  unfold isDigitC at ha hb hc
  simp only [Bool.and_eq_true, decide_eq_true_eq] at ha hb hc
  unfold natOfDigits
  simp only [List.foldl]
  omega

/-! ## Claim C5: the render round trip -/

theorem take_append_one (xs : List Char) (y : Char) (ys : List Char) :
    (xs ++ y :: ys).take (xs.length + 1) = xs ++ [y] := by
  induction xs with
  | nil => simp
  | cons a t ih => simp [ih]

theorem drop_append_one (xs : List Char) (y : Char) (ys : List Char) :
    (xs ++ y :: ys).drop (xs.length + 1) = ys := by
  induction xs with
  | nil => simp
  | cons a t ih => simp [ih]

theorem maximalRun_all {cls : Char → Bool} {xs : List Char}
    (h : ∀ c ∈ xs, cls c = true) : maximalRun cls xs = xs.length := by
  have h2 := maximalRun_append_all [] h
  simpa using h2

/-- A greedy `\s+` that can take exactly one space offers exactly the
one-space split. -/
theorem splits_space_one {X : List Char}
    (h : ∀ c, X.head? = some c → goRegexSpace c = false) :
    splitsMany1 goRegexSpace (' ' :: X) = [([' '], X)] := by
  unfold splitsMany1
  rw [maximalRun_cons_pos (by decide), maximalRun_of_head_neg h]
  simp [splitsDesc]

/-- A greedy class run over `xs ++ y :: z :: zs` with `xs`, `y` in the
class and `z` outside offers the full run first, then the run without its
final `y`. -/
theorem splitsMany1_two_candidates (cls : Char → Bool) (x0 : Char) (xt : List Char)
    (y z : Char) (zs : List Char)
    (hxs : ∀ c ∈ x0 :: xt, cls c = true) (hy : cls y = true) (hz : cls z = false) :
    splitsMany1 cls ((x0 :: xt) ++ y :: z :: zs) =
      ((x0 :: xt) ++ [y], z :: zs) :: (x0 :: xt, y :: z :: zs) ::
        splitsDesc ((x0 :: xt) ++ y :: z :: zs) xt.length := by
  unfold splitsMany1
  rw [maximalRun_append_all _ hxs, maximalRun_cons_pos hy, maximalRun_cons_neg hz]
  simp only [List.length_cons, Nat.add_zero, Nat.zero_add]
  rw [splitsDesc, splitsDesc]
  have ht1 : ((x0 :: xt) ++ y :: z :: zs).take (xt.length + 1 + 1) = (x0 :: xt) ++ [y] := by
    have h := take_append_one (x0 :: xt) y (z :: zs)
    simpa using h
  have hd1 : ((x0 :: xt) ++ y :: z :: zs).drop (xt.length + 1 + 1) = z :: zs := by
    have h := drop_append_one (x0 :: xt) y (z :: zs)
    simpa using h
  have ht2 : ((x0 :: xt) ++ y :: z :: zs).take (xt.length + 1) = x0 :: xt := by
    have h := List.take_left (x0 :: xt) (y :: z :: zs)
    simpa using h
  have hd2 : ((x0 :: xt) ++ y :: z :: zs).drop (xt.length + 1) = y :: z :: zs := by
    have h := List.drop_left (x0 :: xt) (y :: z :: zs)
    simpa using h
  rw [ht1, hd1, ht2, hd2]

/-- `\d{3}` on three digits followed by anything. -/
theorem takeExact_digits {d1 d2 d3 : Char} (rest : List Char)
    (h : ∀ c ∈ [d1, d2, d3], isDigitC c = true) :
    takeExact 3 isDigitC ([d1, d2, d3] ++ rest) = some ([d1, d2, d3], rest) := by
  unfold takeExact
  rw [List.take_left' (by simp), List.drop_left' (by simp)]
  rw [if_pos ⟨by simp, List.all_eq_true.mpr h⟩]

/-- `\s+` cannot start at `-`. -/
theorem splits_dash_none (X : List Char) : splitsMany1 goRegexSpace ('-' :: X) = [] := by
  unfold splitsMany1
  rw [maximalRun_cons_neg (by decide)]
  rfl

/-- `(.*)$` offers the whole (newline-free) message as its first
candidate. -/
theorem splitsMany0_dot_full {Msg : List Char} (hMn : '\n' ∉ Msg) :
    ∃ tail, splitsMany0 isDotC Msg = (Msg, []) :: tail := by
  cases Msg with
  | nil => exact ⟨[], rfl⟩
  | cons m0 mt =>
    refine ⟨splitsDesc (m0 :: mt) mt.length ++ [([], m0 :: mt)], ?_⟩
    unfold splitsMany0
    have hall : ∀ c ∈ (m0 :: mt), isDotC c = true := by
      intro c hc
      simp only [isDotC, Bool.not_eq_true']
      by_contra hx
      rw [Bool.not_eq_false, beq_iff_eq] at hx
      subst hx
      exact hMn hc
    have hrun : maximalRun isDotC (m0 :: mt) = mt.length + 1 := by
      simpa using maximalRun_all hall
    rw [hrun, splitsDesc]
    rw [show mt.length + 1 = (m0 :: mt).length from by simp]
    rw [List.take_length, List.drop_length]
    rw [List.cons_append]

theorem plainTail_render
    {M U D R Msg : List Char}
    (hU1 : U ≠ []) (hU2 : ∀ c ∈ U, goRegexSpace c = false)
    (hD3 : D.length = 3) (hDd : ∀ c ∈ D, isDigitC c = true)
    (hR1 : R ≠ []) (hRc : ∀ c ∈ R, isReasonChar c = true)
    (hRh : ∀ c, R.head? = some c → goRegexSpace c = false)
    (hMh : ∀ c, Msg.head? = some c → goRegexSpace c = false)
    (hMn : '\n' ∉ Msg) :
    plainTail M (M ++ ' ' :: (U ++ ':' :: ' ' :: (D ++ ' ' :: (R ++ ' ' :: '-' :: ' ' :: Msg)))) =
      some ⟨M, U, D, R, Msg⟩ := by
  obtain ⟨u0, ut, rfl⟩ : ∃ u0 ut, U = u0 :: ut := by
    cases U with
    | nil => exact absurd rfl hU1
    | cons a t => exact ⟨a, t, rfl⟩
  obtain ⟨d1, d2, d3, rfl⟩ := List.length_eq_three.mp hD3
  obtain ⟨r0, rt, rfl⟩ : ∃ r0 rt, R = r0 :: rt := by
    cases R with
    | nil => exact absurd rfl hR1
    | cons a t => exact ⟨a, t, rfl⟩
  have e1 : splitsMany1 goRegexSpace
      (' ' :: ((u0 :: ut) ++ ':' :: ' ' :: ([d1, d2, d3] ++ ' ' ::
        ((r0 :: rt) ++ ' ' :: '-' :: ' ' :: Msg)))) =
      [([' '], (u0 :: ut) ++ ':' :: ' ' :: ([d1, d2, d3] ++ ' ' ::
        ((r0 :: rt) ++ ' ' :: '-' :: ' ' :: Msg)))] := by
    apply splits_space_one
    intro c hc
    simp only [List.cons_append, List.head?_cons, Option.some.injEq] at hc
    subst hc
    exact hU2 u0 (List.mem_cons_self _ _)
  have e2 := splitsMany1_two_candidates isNonSpaceRe u0 ut ':' ' '
    ([d1, d2, d3] ++ ' ' :: ((r0 :: rt) ++ ' ' :: '-' :: ' ' :: Msg))
    (fun c hc => by simp [isNonSpaceRe, hU2 c hc]) (by decide) (by decide)
  have ef1 : litP ([':'])
      (' ' :: ([d1, d2, d3] ++ ' ' :: ((r0 :: rt) ++ ' ' :: '-' :: ' ' :: Msg))) = none := by
    unfold litP hasPref
    simp
  have ef2 : litP ([':'])
      (':' :: ' ' :: ([d1, d2, d3] ++ ' ' :: ((r0 :: rt) ++ ' ' :: '-' :: ' ' :: Msg))) =
      some (' ' :: ([d1, d2, d3] ++ ' ' :: ((r0 :: rt) ++ ' ' :: '-' :: ' ' :: Msg))) :=
    litP_self ([':']) _
  have e3 : splitsMany1 goRegexSpace
      (' ' :: ([d1, d2, d3] ++ ' ' :: ((r0 :: rt) ++ ' ' :: '-' :: ' ' :: Msg))) =
      [([' '], [d1, d2, d3] ++ ' ' :: ((r0 :: rt) ++ ' ' :: '-' :: ' ' :: Msg))] := by
    apply splits_space_one
    intro c hc
    simp only [List.cons_append, List.head?_cons, Option.some.injEq] at hc
    subst hc
    exact isDigit_not_space (hDd d1 (by simp))
  have e4 := takeExact_digits (' ' :: ((r0 :: rt) ++ ' ' :: '-' :: ' ' :: Msg)) hDd
  have e5 : splitsMany1 goRegexSpace
      (' ' :: ((r0 :: rt) ++ ' ' :: '-' :: ' ' :: Msg)) =
      [([' '], (r0 :: rt) ++ ' ' :: '-' :: ' ' :: Msg)] := by
    apply splits_space_one
    intro c hc
    simp only [List.cons_append, List.head?_cons, Option.some.injEq] at hc
    subst hc
    exact hRh r0 rfl
  have e6 := splitsMany1_two_candidates isReasonChar r0 rt ' ' '-' (' ' :: Msg)
    hRc (by decide) (by decide)
  have ef3 := splits_dash_none (' ' :: Msg)
  have e7 : splitsMany1 goRegexSpace (' ' :: '-' :: ' ' :: Msg) =
      [([' '], '-' :: ' ' :: Msg)] := by
    apply splits_space_one
    intro c hc
    simp only [List.head?_cons, Option.some.injEq] at hc
    subst hc
    decide
  have e8 : litP (['-']) ('-' :: ' ' :: Msg) = some (' ' :: Msg) :=
    litP_self (['-']) _
  have e9 : splitsMany1 goRegexSpace (' ' :: Msg) = [([' '], Msg)] :=
    splits_space_one hMh
  obtain ⟨dtail, e10⟩ := splitsMany0_dot_full hMn
  unfold plainTail
  rw [litP_self]
  simp only [Option.some_bind, e1, List.findSome?_cons, List.findSome?_nil, e2, e3, e4,
    e5, e6, e7, e8, e9, e10, ef1, ef2, ef3, Option.none_bind]
  simp

theorem getLast?_append_right {A B : List Char} (h : B ≠ []) :
    (A ++ B).getLast? = B.getLast? := by
  rw [List.getLast?_eq_head?_reverse, List.getLast?_eq_head?_reverse, List.reverse_append]
  cases hB : B.reverse with
  | nil => exact absurd (by simpa using hB) h
  | cons b bt => simp

theorem method_head_ok {m : List Char} (hm : m ∈ methodsList) :
    ∃ c, m.head? = some c ∧ goUnicodeSpace c = false := by
  simp only [methodsList, List.mem_cons, List.not_mem_nil, or_false] at hm
  rcases hm with rfl | rfl | rfl | rfl | rfl
  · exact ⟨'G', rfl, by decide⟩
  · exact ⟨'P', rfl, by decide⟩
  · exact ⟨'P', rfl, by decide⟩
  · exact ⟨'P', rfl, by decide⟩
  · exact ⟨'D', rfl, by decide⟩

/-- `Error()` rendered as the right-nested list the plain grammar lemmas
work over. -/
theorem renderError_shape (e : OpenAIError) :
    renderError (some e) =
      e.Method ++ ' ' :: (e.URL ++ ':' :: ' ' :: (Nat.toDigits 10 e.Status ++ ' ' ::
        (e.Reason ++ ' ' :: '-' :: ' ' :: e.Message))) := by
  unfold renderError
  have h1 : ((" ").toList : List Char) = [' '] := rfl
  have h2 : ((": ").toList : List Char) = [':', ' '] := rfl
  have h3 : ((" - ").toList : List Char) = [' ', '-', ' '] := rfl
  rw [h1, h2, h3]
  simp

/-- The plain header pattern on a rendered record: the verb alternation
settles on the record's own method, earlier verbs failing at their first
differing character. -/
theorem plainHead_render {M U D R Msg : List Char}
    (hM : M ∈ methodsList)
    (hU1 : U ≠ []) (hU2 : ∀ c ∈ U, goRegexSpace c = false)
    (hD3 : D.length = 3) (hDd : ∀ c ∈ D, isDigitC c = true)
    (hR1 : R ≠ []) (hRc : ∀ c ∈ R, isReasonChar c = true)
    (hRh : ∀ c, R.head? = some c → goRegexSpace c = false)
    (hMh : ∀ c, Msg.head? = some c → goRegexSpace c = false)
    (hMn : '\n' ∉ Msg) :
    plainHead (M ++ ' ' :: (U ++ ':' :: ' ' :: (D ++ ' ' :: (R ++ ' ' :: '-' :: ' ' :: Msg)))) =
      some ⟨M, U, D, R, Msg⟩ := by
  have hpt := plainTail_render (M := M) hU1 hU2 hD3 hDd hR1 hRc hRh hMh hMn
  simp only [methodsList, List.mem_cons, List.not_mem_nil, or_false] at hM
  unfold plainHead methodsList
  rcases hM with rfl | rfl | rfl | rfl | rfl
  · simp only [List.findSome?_cons, hpt]
  · have hg : plainTail (("GET").toList)
        ((("POST").toList) ++ ' ' :: (U ++ ':' :: ' ' :: (D ++ ' ' ::
          (R ++ ' ' :: '-' :: ' ' :: Msg)))) = none := rfl
    simp only [List.findSome?_cons, hg, hpt]
  · have hg : plainTail (("GET").toList)
        ((("PUT").toList) ++ ' ' :: (U ++ ':' :: ' ' :: (D ++ ' ' ::
          (R ++ ' ' :: '-' :: ' ' :: Msg)))) = none := rfl
    have hpo : plainTail (("POST").toList)
        ((("PUT").toList) ++ ' ' :: (U ++ ':' :: ' ' :: (D ++ ' ' ::
          (R ++ ' ' :: '-' :: ' ' :: Msg)))) = none := rfl
    simp only [List.findSome?_cons, hg, hpo, hpt]
  · have hg : plainTail (("GET").toList)
        ((("PATCH").toList) ++ ' ' :: (U ++ ':' :: ' ' :: (D ++ ' ' ::
          (R ++ ' ' :: '-' :: ' ' :: Msg)))) = none := rfl
    have hpo : plainTail (("POST").toList)
        ((("PATCH").toList) ++ ' ' :: (U ++ ':' :: ' ' :: (D ++ ' ' ::
          (R ++ ' ' :: '-' :: ' ' :: Msg)))) = none := rfl
    have hpu : plainTail (("PUT").toList)
        ((("PATCH").toList) ++ ' ' :: (U ++ ':' :: ' ' :: (D ++ ' ' ::
          (R ++ ' ' :: '-' :: ' ' :: Msg)))) = none := rfl
    simp only [List.findSome?_cons, hg, hpo, hpu, hpt]
  · have hg : plainTail (("GET").toList)
        ((("DELETE").toList) ++ ' ' :: (U ++ ':' :: ' ' :: (D ++ ' ' ::
          (R ++ ' ' :: '-' :: ' ' :: Msg)))) = none := rfl
    have hpo : plainTail (("POST").toList)
        ((("DELETE").toList) ++ ' ' :: (U ++ ':' :: ' ' :: (D ++ ' ' ::
          (R ++ ' ' :: '-' :: ' ' :: Msg)))) = none := rfl
    have hpu : plainTail (("PUT").toList)
        ((("DELETE").toList) ++ ' ' :: (U ++ ':' :: ' ' :: (D ++ ' ' ::
          (R ++ ' ' :: '-' :: ' ' :: Msg)))) = none := rfl
    have hpa : plainTail (("PATCH").toList)
        ((("DELETE").toList) ++ ' ' :: (U ++ ':' :: ' ' :: (D ++ ' ' ::
          (R ++ ' ' :: '-' :: ' ' :: Msg)))) = none := rfl
    simp only [List.findSome?_cons, hg, hpo, hpu, hpa, hpt]

/-- The JSON parser's result keeps the header captures in its `Method`,
`URL`, `Status` and `Reason` fields on every body path. -/
theorem parseJson_header_fields {raw : List Char} {e : OpenAIError}
    (h : ParseOpenAIJsonError raw = some e) :
    ∃ hh, jsonHead (trimSpace raw) = some hh ∧
      e.Method = hh.mth ∧ e.URL = hh.url ∧ e.Status = natOfDigits hh.st ∧
      e.Reason = trimSpace hh.rsn := by
  obtain ⟨hh, hj, hcase⟩ := parseJson_cases h
  refine ⟨hh, hj, ?_⟩
  rcases hcase with rfl | ⟨i, hi, rfl⟩
  · exact ⟨rfl, rfl, rfl, rfl⟩
  · obtain ⟨m1, m2, m3, m4⟩ := processBody_hdr (headerToError hh.mth hh.url hh.st hh.rsn)
      (mkJsonPart ((trimSpace raw).drop i))
    exact ⟨m1, m2, m3, m4⟩

/-- A rendered record whose message is nonempty and already trimmed is
itself trimmed. -/
theorem render_trim {e : OpenAIError}
    (hmem : e.Method ∈ methodsList)
    (hM1 : e.Message ≠ []) (hM2 : trimSpace e.Message = e.Message) :
    trimSpace (renderError (some e)) = renderError (some e) := by
  obtain ⟨c0, hc0, hc0s⟩ := method_head_ok hmem
  apply trimSpace_eq_self
  · intro c hc
    rw [renderError_shape, head?_append_some hc0] at hc
    obtain rfl : c0 = c := by simpa using hc
    exact hc0s
  · intro c hc
    rw [renderError_shape] at hc
    have hsp : e.Method ++ ' ' :: (e.URL ++ ':' :: ' ' :: (Nat.toDigits 10 e.Status ++ ' ' ::
        (e.Reason ++ ' ' :: '-' :: ' ' :: e.Message))) =
        (e.Method ++ ' ' :: (e.URL ++ ':' :: ' ' :: (Nat.toDigits 10 e.Status ++ ' ' ::
          (e.Reason ++ [' ', '-', ' '])))) ++ e.Message := by
      simp
    rw [hsp, getLast?_append_right hM1, ← hM2] at hc
    exact trimSpace_getLast_false hc

/-- C5 (amended): a record accepted by the JSON parser always has a method
from the verb alternation and a three-digit status, hence `Status ≤ 999`
(not 599, and not necessarily ≥ 100: leading zeros shrink it); whenever in
addition `100 ≤ Status`, the URL is whitespace-free, the reason and message
are nonempty, and the message is trimmed and newline-free, re-parsing the
rendered string with the plain parser succeeds and restores `Method`,
`URL`, `Status`, `Reason` and `Message`. -/
theorem c5_round_trip (raw : List Char) (e : OpenAIError)
    (hp : ParseOpenAIJsonError raw = some e) :
    e.Method ∈ methodsList ∧ e.Status ≤ 999 ∧
    (100 ≤ e.Status →
     (∀ c ∈ e.URL, goRegexSpace c = false) →
     e.Reason ≠ [] →
     e.Message ≠ [] →
     trimSpace e.Message = e.Message →
     '\n' ∉ e.Message →
     ∃ e2, ParseOpenAIPlainError (renderError (some e)) = some e2 ∧
       e2.Method = e.Method ∧ e2.URL = e.URL ∧ e2.Status = e.Status ∧
       e2.Reason = e.Reason ∧ e2.Message = e.Message) := by
  obtain ⟨hh, hj, hM, hU, hS, hR⟩ := parseJson_header_fields hp
  obtain ⟨hmem0, ⟨w1, rest, hdec, hurlne, hurlcls⟩, hst3, hstd, hrsnne, hrsncls⟩ :=
    jsonHead_ex hj
  have hmem : e.Method ∈ methodsList := by rw [hM]; exact hmem0
  have h999 : e.Status ≤ 999 := by rw [hS]; exact natOfDigits_le_999 hst3 hstd
  refine ⟨hmem, h999, ?_⟩
  intro h100 hUs hRne hM1 hM2 hMn
  have hD3 : (Nat.toDigits 10 e.Status).length = 3 := toDigits_three_len h100 h999
  have hDd : ∀ c ∈ Nat.toDigits 10 e.Status, isDigitC c = true :=
    toDigits_three_digits h100 h999
  have hUne : e.URL ≠ [] := by rw [hU]; exact hurlne
  have hRcls : ∀ c ∈ e.Reason, isReasonChar c = true := by
    intro c hc
    rw [hR] at hc
    exact hrsncls c (mem_of_mem_trimSpace hc)
  have hRhU : ∀ c, e.Reason.head? = some c → goRegexSpace c = false := by
    intro c hc
    rw [hR] at hc
    exact not_unicode_not_regex (trimSpace_head_false hc)
  have hMhU : ∀ c, e.Message.head? = some c → goRegexSpace c = false := by
    intro c hc
    rw [← hM2] at hc
    exact not_unicode_not_regex (trimSpace_head_false hc)
  have hph := plainHead_render hmem hUne hUs hD3 hDd hRne hRcls hRhU hMhU hMn
  have htrim := render_trim hmem hM1 hM2
  have hRtrim : trimSpace e.Reason = e.Reason := by
    rw [hR]
    exact trimSpace_idem hh.rsn
  have hfields : plainHeaderError
      (⟨e.Method, e.URL, Nat.toDigits 10 e.Status, e.Reason, e.Message⟩ : HeadPlain) =
      { Method := e.Method, URL := e.URL, Status := e.Status, Reason := e.Reason,
        Message := e.Message, Typ := [], Param := none, Code := [], RateInfo := none } := by
    simp only [plainHeaderError]
    rw [natOfDigits_three h100 h999, hRtrim, hM2]
  cases hr : rateFind (plainHeaderError
      (⟨e.Method, e.URL, Nat.toDigits 10 e.Status, e.Reason, e.Message⟩ : HeadPlain)).Message with
  | none =>
    refine ⟨plainHeaderError ⟨e.Method, e.URL, Nat.toDigits 10 e.Status, e.Reason, e.Message⟩,
      ?_, ?_, ?_, ?_, ?_, ?_⟩
    · unfold ParseOpenAIPlainError
      rw [htrim, renderError_shape, hph]
      simp only [hr]
    · rw [hfields]
    · rw [hfields]
    · rw [hfields]
    · rw [hfields]
    · rw [hfields]
  | some rm =>
    refine ⟨plainRmResult ⟨e.Method, e.URL, Nat.toDigits 10 e.Status, e.Reason, e.Message⟩ rm,
      ?_, ?_, ?_, ?_, ?_, ?_⟩
    · unfold ParseOpenAIPlainError
      rw [htrim, renderError_shape, hph]
      simp only [hr]
    · rw [(plainRmResult_fields _ rm).1, hfields]
    · rw [(plainRmResult_fields _ rm).2.1, hfields]
    · rw [(plainRmResult_fields _ rm).2.2.1, hfields]
    · rw [(plainRmResult_fields _ rm).2.2.2.1, hfields]
    · rw [(plainRmResult_fields _ rm).2.2.2.2, hfields]

def c5cex : List Char :=
  ("POST \"https://x\": 999 Weird \x7b\"message\":\"hello\"\x7d").toList

set_option maxRecDepth 100000 in
/-- C5 fails as stated: the status capture is any three digits, so this
accepted input produces `Status = 999`, outside the claimed bound of 599. -/
theorem c5_counterexample :
    (ParseOpenAIJsonError c5cex).map (fun e => e.Status) = some 999 ∧ ¬(999 ≤ 599) := by
  refine ⟨by decide, by decide⟩

def c5win : List Char :=
  ("POST \"https://a\": 429 OK \x7b\"message\":\"m\"\x7d").toList

def c5we : OpenAIError :=
  { Method := ("POST").toList, URL := ("https://a").toList, Status := 429,
    Reason := ("OK").toList, Message := ("m").toList, Typ := [], Param := none,
    Code := [], RateInfo := none }

set_option maxRecDepth 100000 in
/-- Witness for the amended C5: a concrete accepted JSON input whose
rendering the plain parser parses back to the same header fields and
message. -/
theorem c5_witness :
    ParseOpenAIJsonError c5win = some c5we ∧
    (∃ e2, ParseOpenAIPlainError (renderError (some c5we)) = some e2 ∧
      e2.Method = c5we.Method ∧ e2.URL = c5we.URL ∧ e2.Status = c5we.Status ∧
      e2.Reason = c5we.Reason ∧ e2.Message = c5we.Message) :=
  ⟨by decide, (c5_round_trip c5win c5we (by decide)).2.2 (by decide) (by decide)
    (by decide) (by decide) (by decide) (by decide)⟩


end MyAiLib
